import Mathlib

/-!
Verification of the transaction reconciliation engine of the budgeting app:
a shallow embedding of `processTransactionsForCategorization` and of the
explicit categorization handler (`POST /categorize`), together with proofs
of the specified properties.

The database is modelled as the two persisted tables
(`transaction_categorizations` and `manual_review_transactions`) as lists of
rows; `INSERT ... ON CONFLICT DO NOTHING` / `DO UPDATE` become explicit
conditional list operations.  An individual `pool.query` write may fail for
external reasons (connection error); this environment nondeterminism is
supplied as a failure oracle indexed by the position of the write in its
dispatched batch.  A write whose `transaction_id` parameter is NULL always
fails (NOT NULL constraint on both tables).  A run of the engine either
returns the two counts (`ok = true`) or throws, i.e. the awaited
`Promise.all` rejected and the surrounding route handler answers 500
(`ok = false`; the count fields are then not observable by the caller).
-/

namespace Plaid

/-- A raw provider transaction: the `transaction_id` field (possibly
missing), the optional `personal_finance_category.primary` code, and the
rest of the provider payload kept opaque as its serialization `raw`
(this is what `JSON.stringify(tx)` produces). -/
structure Tx where
  transaction_id : Option String
  pfcPrimary : Option String
  raw : String
deriving DecidableEq, Repr

/-- A row of `transaction_categorizations`:
`(user_id, transaction_id, category, plaid_data, created_at)`,
unique on `(user_id, transaction_id)`. -/
structure CatRow where
  userId : Nat
  txId : String
  category : String
  plaidData : String
  createdAt : Nat
deriving DecidableEq, Repr

/-- A row of `manual_review_transactions`:
`(user_id, transaction_id, transaction_data, created_at)`,
unique on `(user_id, transaction_id)`. -/
structure MRRow where
  userId : Nat
  txId : String
  txData : String
  createdAt : Nat
deriving DecidableEq, Repr

/-- The persisted state: the two tables. -/
structure DB where
  cats : List CatRow
  mrs : List MRRow
deriving DecidableEq, Repr

/-- The fixed rule table of provider category codes that are clear enough
to auto-categorize (`AUTO_CATEGORIZE_PLAID_CATEGORIES` in the source). -/
def AUTO_CATEGORIZE_PLAID_CATEGORIES : List String :=
  ["INCOME",
   "PAYROLL",
   "DEPOSIT",
   "TRANSFER_IN",
   "TRANSFER_OUT",
   "BANK_FEES",
   "ATM_FEES",
   "INTEREST_EARNED",
   "INTEREST_CHARGED",
   "LOAN_PAYMENTS",
   "CREDIT_CARD_PAYMENT",
   "INSURANCE",
   "TAXES",
   "UTILITIES",
   "RENT_AND_UTILITIES",
   "MORTGAGE_AND_RENT"]

/-- JavaScript `s.replace(/_/g, ' ')`: every underscore becomes a space. -/
def jsReplaceUnderscores (s : String) : String :=
  String.mk (s.data.map (fun c => if c = '_' then ' ' else c))

/-- JavaScript `s.toLowerCase()` (ASCII, which is all the rule table uses). -/
def jsToLower (s : String) : String :=
  String.mk (s.data.map Char.toLower)

/-- Splitting a character list at every space, keeping empty pieces,
like JavaScript `s.split(' ')`. -/
def splitSpacesAux : List Char → List Char → List (List Char)
  | [], cur => [cur.reverse]
  | c :: cs, cur =>
    if c = ' ' then cur.reverse :: splitSpacesAux cs []
    else splitSpacesAux cs (c :: cur)

/-- JavaScript `s.split(' ')`. -/
def jsSplitSpace (s : String) : List String :=
  (splitSpacesAux s.data []).map String.mk

/-- JavaScript `word.charAt(0).toUpperCase() + word.slice(1)`. -/
def jsCapitalize (w : String) : String :=
  match w.data with
  | [] => ""
  | c :: cs => String.mk (Char.toUpper c :: cs)

/-- The display category derived from a provider code (source lines
216-219): replace underscores with spaces, lowercase, split on spaces,
capitalize each word, join with spaces. -/
def cleanCategory (s : String) : String :=
  String.intercalate " "
    ((jsSplitSpace (jsToLower (jsReplaceUnderscores s))).map jsCapitalize)

/-- The `transaction_id` values of the user's existing
`transaction_categorizations` rows (the first dedup lookup query). -/
def categorizedIdsOf (db : DB) (userId : Nat) : List String :=
  (db.cats.filter (fun r => r.userId == userId)).map (fun r => r.txId)

/-- The `transaction_id` values of the user's existing
`manual_review_transactions` rows (the second dedup lookup query). -/
def manualReviewIdsOf (db : DB) (userId : Nat) : List String :=
  (db.mrs.filter (fun r => r.userId == userId)).map (fun r => r.txId)

/-- JavaScript `set.has(tx.transaction_id)` where the set holds the
(non-null) ids loaded from the database: a missing id is in no set. -/
def hasId (ids : List String) (txId : Option String) : Bool :=
  match txId with
  | some id => ids.contains id
  | none => false

/-- The classifier condition of source line 214:
`plaidCategory && AUTO_CATEGORIZE_PLAID_CATEGORIES.includes(plaidCategory)`
(an absent or empty code is falsy). -/
def isAutoCategorizable (tx : Tx) : Bool :=
  match tx.pfcPrimary with
  | some c => c != "" && AUTO_CATEGORIZE_PLAID_CATEGORIES.contains c
  | none => false

/-- One iteration of the classification loop (source lines 206-232): skip
the transaction when its id is in either existing set, otherwise append it
to the auto list (paired with its display category) or to the manual list. -/
def partitionStep (cIds mIds : List String)
    (acc : List (Tx × String) × List Tx) (tx : Tx) :
    List (Tx × String) × List Tx :=
  if hasId cIds tx.transaction_id || hasId mIds tx.transaction_id then acc
  else if isAutoCategorizable tx then
    (acc.1 ++ [(tx, cleanCategory (tx.pfcPrimary.getD ""))], acc.2)
  else
    (acc.1, acc.2 ++ [tx])

/-- The whole classification loop: fold `partitionStep` over the batch,
yielding the auto-categorization list and the manual-review list in batch
order. -/
def partitionTxs (cIds mIds : List String) (txs : List Tx) :
    List (Tx × String) × List Tx :=
  txs.foldl (partitionStep cIds mIds) ([], [])

/-- The dedup predicate: the transaction survives when its id is in
neither existing set (the negation of the `continue` guard at line 208). -/
def survivesDedup (cIds mIds : List String) (tx : Tx) : Bool :=
  !(hasId cIds tx.transaction_id || hasId mIds tx.transaction_id)

/-- The deduplicated subset of a batch. -/
def dedupFiltered (cIds mIds : List String) (txs : List Tx) : List Tx :=
  txs.filter (survivesDedup cIds mIds)

/-- `INSERT INTO transaction_categorizations ... ON CONFLICT (user_id,
transaction_id) DO NOTHING`.  Returns the new state and whether the write
errored: an external failure or a NULL `transaction_id` (NOT NULL
constraint) errors and leaves the table unchanged; a key conflict is a
silent no-op; otherwise the row is appended. -/
def insertCatNoConflict (db : DB) (userId : Nat) (txId : Option String)
    (category plaidData : String) (now : Nat) (externalFail : Bool) :
    DB × Bool :=
  if externalFail then (db, true)
  else
    match txId with
    | none => (db, true)
    | some id =>
      if db.cats.any (fun r => r.userId == userId && r.txId == id) then
        (db, false)
      else
        ({ db with cats := db.cats ++ [⟨userId, id, category, plaidData, now⟩] },
         false)

/-- `INSERT INTO manual_review_transactions ... ON CONFLICT (user_id,
transaction_id) DO NOTHING`, with the same failure model. -/
def insertMRNoConflict (db : DB) (userId : Nat) (txId : Option String)
    (txData : String) (now : Nat) (externalFail : Bool) : DB × Bool :=
  if externalFail then (db, true)
  else
    match txId with
    | none => (db, true)
    | some id =>
      if db.mrs.any (fun r => r.userId == userId && r.txId == id) then
        (db, false)
      else
        ({ db with mrs := db.mrs ++ [⟨userId, id, txData, now⟩] },
         false)

/-- Dispatch the auto-categorization inserts (the promises pushed at lines
221-227).  All of them are dispatched eagerly, so every write is applied to
the database even when an earlier one errors; the boolean records whether
any write errored, in which case `await Promise.all` rejects. -/
def runAutoWrites (userId now : Nat) (failAt : Nat → Bool) :
    List (Tx × String) → Nat → DB → DB × Bool
  | [], _, db => (db, false)
  | (tx, category) :: rest, i, db =>
    let step := insertCatNoConflict db userId tx.transaction_id category
      tx.raw now (failAt i)
    let next := runAutoWrites userId now failAt rest (i + 1) step.1
    (next.1, step.2 || next.2)

/-- Dispatch the manual-review inserts (the promises created at lines
242-248), with the same all-dispatched-eagerly semantics. -/
def runMRWrites (userId now : Nat) (failAt : Nat → Bool) :
    List Tx → Nat → DB → DB × Bool
  | [], _, db => (db, false)
  | tx :: rest, i, db =>
    let step := insertMRNoConflict db userId tx.transaction_id tx.raw now
      (failAt i)
    let next := runMRWrites userId now failAt rest (i + 1) step.1
    (next.1, step.2 || next.2)

/-- The observable outcome of one ingestion call: the final persisted
state, whether the call returned normally (`ok = true`) or threw
(`ok = false`, the route answers 500 and no counts reach the caller), and
the two counts computed by the engine. -/
structure ProcResult where
  db : DB
  ok : Bool
  autoCount : Nat
  manualCount : Nat
deriving DecidableEq, Repr

/-- `processTransactionsForCategorization(transactions, userId)` (source
lines 186-258) against database state `db` at time `now`, with the two
failure oracles for the auto and the manual write batches.  An empty batch
returns immediately; otherwise the two existing-id sets are loaded, the
batch is classified, the auto writes are dispatched and awaited (a
rejection there throws before the manual writes are ever created), then
the manual writes are dispatched and awaited. -/
def processTransactionsForCategorization (transactions : List Tx)
    (userId : Nat) (db : DB) (now : Nat) (failAuto failMR : Nat → Bool) :
    ProcResult :=
  if transactions.length = 0 then ⟨db, true, 0, 0⟩
  else
    let cIds := categorizedIdsOf db userId
    let mIds := manualReviewIdsOf db userId
    let parts := partitionTxs cIds mIds transactions
    let autoRun := runAutoWrites userId now failAuto parts.1 0 db
    if autoRun.2 then ⟨autoRun.1, false, parts.1.length, parts.2.length⟩
    else
      let mrRun := runMRWrites userId now failMR parts.2 0 autoRun.1
      ⟨mrRun.1, !mrRun.2, parts.1.length, parts.2.length⟩

/-- The `POST /categorize` handler body (source lines 441-477): an
`INSERT ... ON CONFLICT (user_id, transaction_id) DO UPDATE SET category =
$3, plaid_data = $4, created_at = CURRENT_TIMESTAMP` followed by a
`DELETE FROM manual_review_transactions` for the same key. -/
def categorizeTransaction (db : DB) (userId : Nat) (txId : String)
    (category plaidData : String) (now : Nat) : DB :=
  let conflict := db.cats.any (fun r => r.userId == userId && r.txId == txId)
  let cats :=
    if conflict then
      db.cats.map (fun r =>
        if r.userId == userId && r.txId == txId then
          { r with category := category, plaidData := plaidData, createdAt := now }
        else r)
    else
      db.cats ++ [⟨userId, txId, category, plaidData, now⟩]
  let mrs := db.mrs.filter (fun r => !(r.userId == userId && r.txId == txId))
  ⟨cats, mrs⟩

/-- The `(user_id, transaction_id)` keys of the categorization table. -/
def catKeys (db : DB) : List (Nat × String) :=
  db.cats.map (fun r => (r.userId, r.txId))

/-- The `(user_id, transaction_id)` keys of the manual-review table. -/
def mrKeys (db : DB) : List (Nat × String) :=
  db.mrs.map (fun r => (r.userId, r.txId))

/-- The steady-state invariant of the data model: no duplicate key inside
either table, and no key present in both tables at once. -/
def SteadyState (db : DB) : Prop :=
  (catKeys db).Nodup ∧ (mrKeys db).Nodup ∧
    ∀ k ∈ catKeys db, k ∉ mrKeys db

instance (db : DB) : Decidable (SteadyState db) := by
  unfold SteadyState; infer_instance

/-- The all-writes-succeed oracle. -/
def noFail : Nat → Bool := fun _ => false

/-! ### Characterization of the classification loop -/

/-- The auto partition of a batch: the deduplicated transactions whose code
matches the rule table, each paired with its display category. -/
def autosOf (cIds mIds : List String) (txs : List Tx) : List (Tx × String) :=
  ((dedupFiltered cIds mIds txs).filter isAutoCategorizable).map
    (fun tx => (tx, cleanCategory (tx.pfcPrimary.getD "")))

/-- The manual partition of a batch: the deduplicated transactions whose
code does not match the rule table. -/
def manualsOf (cIds mIds : List String) (txs : List Tx) : List Tx :=
  (dedupFiltered cIds mIds txs).filter (fun tx => !isAutoCategorizable tx)

theorem foldl_partitionStep (cIds mIds : List String) :
    ∀ (txs : List Tx) (a : List (Tx × String)) (b : List Tx),
      txs.foldl (partitionStep cIds mIds) (a, b) =
        (a ++ autosOf cIds mIds txs, b ++ manualsOf cIds mIds txs)
  | [], a, b => by simp [autosOf, manualsOf, dedupFiltered]
  | tx :: rest, a, b => by
    have hrec := foldl_partitionStep cIds mIds rest
    cases hc : hasId cIds tx.transaction_id || hasId mIds tx.transaction_id with
    | true =>
      have hs : survivesDedup cIds mIds tx = false := by
        simp [survivesDedup, hc]
      simp only [List.foldl_cons, partitionStep, hc, if_true]
      rw [hrec]
      simp [autosOf, manualsOf, dedupFiltered, List.filter_cons, hs]
    | false =>
      have hs : survivesDedup cIds mIds tx = true := by
        simp [survivesDedup, hc]
      cases ha : isAutoCategorizable tx with
      | true =>
        simp only [List.foldl_cons, partitionStep, hc, Bool.false_eq_true,
          if_false, ha, if_true]
        rw [hrec]
        simp [autosOf, manualsOf, dedupFiltered, List.filter_cons, hs, ha]
      | false =>
        simp only [List.foldl_cons, partitionStep, hc, ha, Bool.false_eq_true,
          if_false]
        rw [hrec]
        simp [autosOf, manualsOf, dedupFiltered, List.filter_cons, hs, ha]

theorem partitionTxs_eq (cIds mIds : List String) (txs : List Tx) :
    partitionTxs cIds mIds txs =
      (autosOf cIds mIds txs, manualsOf cIds mIds txs) := by
  simpa using foldl_partitionStep cIds mIds txs [] []

/-! ### Membership in the loaded id sets -/

theorem mem_categorizedIdsOf {db : DB} {u : Nat} {id : String} :
    id ∈ categorizedIdsOf db u ↔ ∃ r ∈ db.cats, r.userId = u ∧ r.txId = id := by
  simp only [categorizedIdsOf, List.mem_map, List.mem_filter, beq_iff_eq]
  constructor
  · rintro ⟨r, ⟨hr, hu⟩, ht⟩
    exact ⟨r, hr, hu, ht⟩
  · rintro ⟨r, hr, hu, ht⟩
    exact ⟨r, ⟨hr, hu⟩, ht⟩

theorem mem_manualReviewIdsOf {db : DB} {u : Nat} {id : String} :
    id ∈ manualReviewIdsOf db u ↔ ∃ r ∈ db.mrs, r.userId = u ∧ r.txId = id := by
  simp only [manualReviewIdsOf, List.mem_map, List.mem_filter, beq_iff_eq]
  constructor
  · rintro ⟨r, ⟨hr, hu⟩, ht⟩
    exact ⟨r, hr, hu, ht⟩
  · rintro ⟨r, hr, hu, ht⟩
    exact ⟨r, ⟨hr, hu⟩, ht⟩

theorem mem_catKeys {db : DB} {u : Nat} {id : String} :
    (u, id) ∈ catKeys db ↔ id ∈ categorizedIdsOf db u := by
  rw [mem_categorizedIdsOf]
  simp only [catKeys, List.mem_map, Prod.mk.injEq]

theorem mem_mrKeys {db : DB} {u : Nat} {id : String} :
    (u, id) ∈ mrKeys db ↔ id ∈ manualReviewIdsOf db u := by
  rw [mem_manualReviewIdsOf]
  simp only [mrKeys, List.mem_map, Prod.mk.injEq]

theorem hasId_true_iff {ids : List String} {t : Option String} :
    hasId ids t = true ↔ ∃ id, t = some id ∧ id ∈ ids := by
  cases t with
  | none => simp [hasId]
  | some id => simp [hasId, List.elem_iff]

/-! ### Effect of a single insert -/

theorem insertCat_mrs (db : DB) (u : Nat) (t : Option String)
    (c d : String) (n : Nat) (fl : Bool) :
    (insertCatNoConflict db u t c d n fl).1.mrs = db.mrs := by
  unfold insertCatNoConflict
  cases fl with
  | true => rfl
  | false =>
    cases t with
    | none => rfl
    | some id =>
      by_cases h : db.cats.any (fun r => r.userId == u && r.txId == id) = true <;>
        simp [h]

theorem insertCat_cats_append (db : DB) (u : Nat) (t : Option String)
    (c d : String) (n : Nat) (fl : Bool) :
    ∃ tl, (insertCatNoConflict db u t c d n fl).1.cats = db.cats ++ tl := by
  unfold insertCatNoConflict
  cases fl with
  | true => exact ⟨[], by simp⟩
  | false =>
    cases t with
    | none => exact ⟨[], by simp⟩
    | some id =>
      by_cases h : db.cats.any (fun r => r.userId == u && r.txId == id) = true
      · exact ⟨[], by simp [h]⟩
      · exact ⟨[⟨u, id, c, d, n⟩], by simp [h]⟩

theorem insertCat_snd (db : DB) (u : Nat) (t : Option String)
    (c d : String) (n : Nat) (fl : Bool) :
    (insertCatNoConflict db u t c d n fl).2 = (fl || t.isNone) := by
  unfold insertCatNoConflict
  cases fl with
  | true => rfl
  | false =>
    cases t with
    | none => rfl
    | some id =>
      by_cases h : db.cats.any (fun r => r.userId == u && r.txId == id) = true <;>
        simp [h]

theorem insertCat_some_mem (db : DB) (u : Nat) (id : String)
    (c d : String) (n : Nat) :
    id ∈ categorizedIdsOf (insertCatNoConflict db u (some id) c d n false).1 u := by
  unfold insertCatNoConflict
  by_cases h : db.cats.any (fun r => r.userId == u && r.txId == id) = true
  · simp only [h, if_true, if_false, Bool.false_eq_true]
    rw [List.any_eq_true] at h
    obtain ⟨r, hr, hp⟩ := h
    rw [Bool.and_eq_true, beq_iff_eq, beq_iff_eq] at hp
    exact mem_categorizedIdsOf.2 ⟨r, hr, hp.1, hp.2⟩
  · simp only [h, if_false, Bool.false_eq_true]
    exact mem_categorizedIdsOf.2 ⟨⟨u, id, c, d, n⟩, by simp, rfl, rfl⟩

theorem insertCat_cats_rows {db : DB} {u : Nat} {t : Option String}
    {c d : String} {n : Nat} {fl : Bool} {r : CatRow}
    (h : r ∈ (insertCatNoConflict db u t c d n fl).1.cats) :
    r ∈ db.cats ∨ ∃ id, t = some id ∧ r = ⟨u, id, c, d, n⟩ := by
  unfold insertCatNoConflict at h
  cases fl with
  | true => exact Or.inl h
  | false =>
    cases t with
    | none => exact Or.inl h
    | some id =>
      by_cases hc : db.cats.any (fun r => r.userId == u && r.txId == id) = true
      · simp only [hc, if_true, if_false, Bool.false_eq_true] at h
        exact Or.inl h
      · simp only [hc, if_false, Bool.false_eq_true] at h
        rcases List.mem_append.1 h with h1 | h1
        · exact Or.inl h1
        · exact Or.inr ⟨id, rfl, by simpa using h1⟩

theorem insertMR_cats (db : DB) (u : Nat) (t : Option String)
    (d : String) (n : Nat) (fl : Bool) :
    (insertMRNoConflict db u t d n fl).1.cats = db.cats := by
  unfold insertMRNoConflict
  cases fl with
  | true => rfl
  | false =>
    cases t with
    | none => rfl
    | some id =>
      by_cases h : db.mrs.any (fun r => r.userId == u && r.txId == id) = true <;>
        simp [h]

theorem insertMR_mrs_append (db : DB) (u : Nat) (t : Option String)
    (d : String) (n : Nat) (fl : Bool) :
    ∃ tl, (insertMRNoConflict db u t d n fl).1.mrs = db.mrs ++ tl := by
  unfold insertMRNoConflict
  cases fl with
  | true => exact ⟨[], by simp⟩
  | false =>
    cases t with
    | none => exact ⟨[], by simp⟩
    | some id =>
      by_cases h : db.mrs.any (fun r => r.userId == u && r.txId == id) = true
      · exact ⟨[], by simp [h]⟩
      · exact ⟨[⟨u, id, d, n⟩], by simp [h]⟩

theorem insertMR_snd (db : DB) (u : Nat) (t : Option String)
    (d : String) (n : Nat) (fl : Bool) :
    (insertMRNoConflict db u t d n fl).2 = (fl || t.isNone) := by
  unfold insertMRNoConflict
  cases fl with
  | true => rfl
  | false =>
    cases t with
    | none => rfl
    | some id =>
      by_cases h : db.mrs.any (fun r => r.userId == u && r.txId == id) = true <;>
        simp [h]

theorem insertMR_some_mem (db : DB) (u : Nat) (id : String)
    (d : String) (n : Nat) :
    id ∈ manualReviewIdsOf (insertMRNoConflict db u (some id) d n false).1 u := by
  unfold insertMRNoConflict
  by_cases h : db.mrs.any (fun r => r.userId == u && r.txId == id) = true
  · simp only [h, if_true, if_false, Bool.false_eq_true]
    rw [List.any_eq_true] at h
    obtain ⟨r, hr, hp⟩ := h
    rw [Bool.and_eq_true, beq_iff_eq, beq_iff_eq] at hp
    exact mem_manualReviewIdsOf.2 ⟨r, hr, hp.1, hp.2⟩
  · simp only [h, if_false, Bool.false_eq_true]
    exact mem_manualReviewIdsOf.2 ⟨⟨u, id, d, n⟩, by simp, rfl, rfl⟩

theorem insertMR_mrs_rows {db : DB} {u : Nat} {t : Option String}
    {d : String} {n : Nat} {fl : Bool} {r : MRRow}
    (h : r ∈ (insertMRNoConflict db u t d n fl).1.mrs) :
    r ∈ db.mrs ∨ ∃ id, t = some id ∧ r = ⟨u, id, d, n⟩ := by
  unfold insertMRNoConflict at h
  cases fl with
  | true => exact Or.inl h
  | false =>
    cases t with
    | none => exact Or.inl h
    | some id =>
      by_cases hc : db.mrs.any (fun r => r.userId == u && r.txId == id) = true
      · simp only [hc, if_true, if_false, Bool.false_eq_true] at h
        exact Or.inl h
      · simp only [hc, if_false, Bool.false_eq_true] at h
        rcases List.mem_append.1 h with h1 | h1
        · exact Or.inl h1
        · exact Or.inr ⟨id, rfl, by simpa using h1⟩

/-! ### Effect of the dispatched write batches -/

theorem mem_categorizedIdsOf_of_append {db db' : DB} {u : Nat} {id : String}
    (h : ∃ tl, db'.cats = db.cats ++ tl) (hm : id ∈ categorizedIdsOf db u) :
    id ∈ categorizedIdsOf db' u := by
  obtain ⟨tl, htl⟩ := h
  obtain ⟨r, hr, hu, ht⟩ := mem_categorizedIdsOf.1 hm
  exact mem_categorizedIdsOf.2 ⟨r, by simp [htl, hr], hu, ht⟩

theorem mem_manualReviewIdsOf_of_append {db db' : DB} {u : Nat} {id : String}
    (h : ∃ tl, db'.mrs = db.mrs ++ tl) (hm : id ∈ manualReviewIdsOf db u) :
    id ∈ manualReviewIdsOf db' u := by
  obtain ⟨tl, htl⟩ := h
  obtain ⟨r, hr, hu, ht⟩ := mem_manualReviewIdsOf.1 hm
  exact mem_manualReviewIdsOf.2 ⟨r, by simp [htl, hr], hu, ht⟩

theorem runAutoWrites_mrs (u n : Nat) (f : Nat → Bool) :
    ∀ (l : List (Tx × String)) (i : Nat) (db : DB),
      (runAutoWrites u n f l i db).1.mrs = db.mrs
  | [], _, _ => rfl
  | (tx, c) :: rest, i, db => by
    simp only [runAutoWrites]
    rw [runAutoWrites_mrs u n f rest (i + 1)]
    exact insertCat_mrs db u tx.transaction_id c tx.raw n (f i)

theorem runAutoWrites_cats_append (u n : Nat) (f : Nat → Bool) :
    ∀ (l : List (Tx × String)) (i : Nat) (db : DB),
      ∃ tl, (runAutoWrites u n f l i db).1.cats = db.cats ++ tl
  | [], _, db => ⟨[], by simp [runAutoWrites]⟩
  | (tx, c) :: rest, i, db => by
    simp only [runAutoWrites]
    obtain ⟨tl1, h1⟩ :=
      insertCat_cats_append db u tx.transaction_id c tx.raw n (f i)
    obtain ⟨tl2, h2⟩ := runAutoWrites_cats_append u n f rest (i + 1)
      (insertCatNoConflict db u tx.transaction_id c tx.raw n (f i)).1
    exact ⟨tl1 ++ tl2, by rw [h2, h1, List.append_assoc]⟩

theorem runMRWrites_cats (u n : Nat) (f : Nat → Bool) :
    ∀ (l : List Tx) (i : Nat) (db : DB),
      (runMRWrites u n f l i db).1.cats = db.cats
  | [], _, _ => rfl
  | tx :: rest, i, db => by
    simp only [runMRWrites]
    rw [runMRWrites_cats u n f rest (i + 1)]
    exact insertMR_cats db u tx.transaction_id tx.raw n (f i)

theorem runMRWrites_mrs_append (u n : Nat) (f : Nat → Bool) :
    ∀ (l : List Tx) (i : Nat) (db : DB),
      ∃ tl, (runMRWrites u n f l i db).1.mrs = db.mrs ++ tl
  | [], _, db => ⟨[], by simp [runMRWrites]⟩
  | tx :: rest, i, db => by
    simp only [runMRWrites]
    obtain ⟨tl1, h1⟩ := insertMR_mrs_append db u tx.transaction_id tx.raw n (f i)
    obtain ⟨tl2, h2⟩ := runMRWrites_mrs_append u n f rest (i + 1)
      (insertMRNoConflict db u tx.transaction_id tx.raw n (f i)).1
    exact ⟨tl1 ++ tl2, by rw [h2, h1, List.append_assoc]⟩

theorem runAutoWrites_snd_false (u n : Nat) (f : Nat → Bool) :
    ∀ (l : List (Tx × String)) (i : Nat) (db : DB),
      (∀ j, j < l.length → f (i + j) = false) →
      (∀ p ∈ l, (p : Tx × String).1.transaction_id ≠ none) →
      (runAutoWrites u n f l i db).2 = false
  | [], _, _, _, _ => rfl
  | (tx, c) :: rest, i, db, hf, hl => by
    simp only [runAutoWrites]
    rw [runAutoWrites_snd_false u n f rest (i + 1) _
      (fun j hj => by
        rw [Nat.add_right_comm]
        exact hf (j + 1) (by simpa using Nat.succ_lt_succ hj))
      (fun p hp => hl p (List.mem_cons_of_mem _ hp))]
    rw [insertCat_snd]
    have h0 := hf 0 (Nat.succ_pos _)
    rw [Nat.add_zero] at h0
    rw [h0]
    have := hl (tx, c) (List.mem_cons_self _ _)
    cases ht : tx.transaction_id with
    | none => exact absurd ht this
    | some id => simp

theorem runMRWrites_snd_false (u n : Nat) (f : Nat → Bool) :
    ∀ (l : List Tx) (i : Nat) (db : DB),
      (∀ j, j < l.length → f (i + j) = false) →
      (∀ tx ∈ l, (tx : Tx).transaction_id ≠ none) →
      (runMRWrites u n f l i db).2 = false
  | [], _, _, _, _ => rfl
  | tx :: rest, i, db, hf, hl => by
    simp only [runMRWrites]
    rw [runMRWrites_snd_false u n f rest (i + 1) _
      (fun j hj => by
        rw [Nat.add_right_comm]
        exact hf (j + 1) (by simpa using Nat.succ_lt_succ hj))
      (fun p hp => hl p (List.mem_cons_of_mem _ hp))]
    rw [insertMR_snd]
    have h0 := hf 0 (Nat.succ_pos _)
    rw [Nat.add_zero] at h0
    rw [h0]
    have := hl tx (List.mem_cons_self _ _)
    cases ht : tx.transaction_id with
    | none => exact absurd ht this
    | some id => simp

theorem runAutoWrites_snd_of_none (u n : Nat) (f : Nat → Bool) :
    ∀ (l : List (Tx × String)) (i : Nat) (db : DB),
      (∃ p ∈ l, (p : Tx × String).1.transaction_id = none) →
      (runAutoWrites u n f l i db).2 = true
  | (tx, c) :: rest, i, db, h => by
    simp only [runAutoWrites]
    rcases h with ⟨p, hp, hnone⟩
    rcases List.mem_cons.1 hp with rfl | hp
    · rw [insertCat_snd, hnone]
      simp
    · rw [runAutoWrites_snd_of_none u n f rest (i + 1) _ ⟨p, hp, hnone⟩]
      simp

theorem runMRWrites_snd_of_none (u n : Nat) (f : Nat → Bool) :
    ∀ (l : List Tx) (i : Nat) (db : DB),
      (∃ tx ∈ l, (tx : Tx).transaction_id = none) →
      (runMRWrites u n f l i db).2 = true
  | tx :: rest, i, db, h => by
    simp only [runMRWrites]
    rcases h with ⟨p, hp, hnone⟩
    rcases List.mem_cons.1 hp with rfl | hp
    · rw [insertMR_snd, hnone]
      simp
    · rw [runMRWrites_snd_of_none u n f rest (i + 1) _ ⟨p, hp, hnone⟩]
      simp

theorem runAutoWrites_snd_of_fail (u n : Nat) (f : Nat → Bool) :
    ∀ (l : List (Tx × String)) (i : Nat) (db : DB) (j : Nat),
      j < l.length → f (i + j) = true →
      (runAutoWrites u n f l i db).2 = true
  | (tx, c) :: rest, i, db, 0, _, hf => by
    simp only [runAutoWrites]
    rw [insertCat_snd]
    rw [Nat.add_zero] at hf
    simp [hf]
  | (tx, c) :: rest, i, db, j + 1, hj, hf => by
    simp only [runAutoWrites]
    have : f (i + 1 + j) = true := by
      rw [Nat.add_right_comm]
      exact hf
    rw [runAutoWrites_snd_of_fail u n f rest (i + 1) _ j
      (by simpa using Nat.lt_of_succ_lt_succ hj) this]
    simp

theorem runMRWrites_snd_of_fail (u n : Nat) (f : Nat → Bool) :
    ∀ (l : List Tx) (i : Nat) (db : DB) (j : Nat),
      j < l.length → f (i + j) = true →
      (runMRWrites u n f l i db).2 = true
  | tx :: rest, i, db, 0, _, hf => by
    simp only [runMRWrites]
    rw [insertMR_snd]
    rw [Nat.add_zero] at hf
    simp [hf]
  | tx :: rest, i, db, j + 1, hj, hf => by
    simp only [runMRWrites]
    have : f (i + 1 + j) = true := by
      rw [Nat.add_right_comm]
      exact hf
    rw [runMRWrites_snd_of_fail u n f rest (i + 1) _ j
      (by simpa using Nat.lt_of_succ_lt_succ hj) this]
    simp

theorem runAutoWrites_mem_of_not_fail (u n : Nat) (f : Nat → Bool) :
    ∀ (l : List (Tx × String)) (i : Nat) (db : DB) (j : Nat)
      (hj : j < l.length),
      f (i + j) = false → ∀ id : String,
      (l.get ⟨j, hj⟩).1.transaction_id = some id →
      id ∈ categorizedIdsOf (runAutoWrites u n f l i db).1 u
  | (tx, c) :: rest, i, db, 0, _, hf, id, hid => by
    simp only [List.get] at hid
    simp only [runAutoWrites]
    rw [Nat.add_zero] at hf
    apply mem_categorizedIdsOf_of_append (runAutoWrites_cats_append u n f rest (i + 1) _)
    rw [hid, hf]
    exact insertCat_some_mem db u id c tx.raw n
  | (tx, c) :: rest, i, db, j + 1, hj, hf, id, hid => by
    simp only [List.get] at hid
    simp only [runAutoWrites]
    have hf1 : f (i + 1 + j) = false := by
      rw [Nat.add_right_comm]
      exact hf
    exact runAutoWrites_mem_of_not_fail u n f rest (i + 1) _ j
      (Nat.lt_of_succ_lt_succ hj) hf1 id hid

theorem runMRWrites_mem_of_not_fail (u n : Nat) (f : Nat → Bool) :
    ∀ (l : List Tx) (i : Nat) (db : DB) (j : Nat) (hj : j < l.length),
      f (i + j) = false → ∀ id : String,
      (l.get ⟨j, hj⟩).transaction_id = some id →
      id ∈ manualReviewIdsOf (runMRWrites u n f l i db).1 u
  | tx :: rest, i, db, 0, _, hf, id, hid => by
    simp only [List.get] at hid
    simp only [runMRWrites]
    rw [Nat.add_zero] at hf
    apply mem_manualReviewIdsOf_of_append (runMRWrites_mrs_append u n f rest (i + 1) _)
    rw [hid, hf]
    exact insertMR_some_mem db u id tx.raw n
  | tx :: rest, i, db, j + 1, hj, hf, id, hid => by
    simp only [List.get] at hid
    simp only [runMRWrites]
    have hf1 : f (i + 1 + j) = false := by
      rw [Nat.add_right_comm]
      exact hf
    exact runMRWrites_mem_of_not_fail u n f rest (i + 1) _ j
      (Nat.lt_of_succ_lt_succ hj) hf1 id hid

theorem runAutoWrites_cats_rows (u n : Nat) (f : Nat → Bool) :
    ∀ (l : List (Tx × String)) (i : Nat) (db : DB) (r : CatRow),
      r ∈ (runAutoWrites u n f l i db).1.cats →
      r ∈ db.cats ∨ ∃ p ∈ l, ∃ id, (p : Tx × String).1.transaction_id = some id ∧
        r = ⟨u, id, p.2, p.1.raw, n⟩
  | [], _, _, _, h => Or.inl h
  | (tx, c) :: rest, i, db, r, h => by
    simp only [runAutoWrites] at h
    rcases runAutoWrites_cats_rows u n f rest (i + 1) _ r h with h1 | ⟨p, hp, id, hid, hr⟩
    · rcases insertCat_cats_rows h1 with h2 | ⟨id, hid, hr⟩
      · exact Or.inl h2
      · exact Or.inr ⟨(tx, c), List.mem_cons_self _ _, id, hid, hr⟩
    · exact Or.inr ⟨p, List.mem_cons_of_mem _ hp, id, hid, hr⟩

theorem runMRWrites_mrs_rows (u n : Nat) (f : Nat → Bool) :
    ∀ (l : List Tx) (i : Nat) (db : DB) (r : MRRow),
      r ∈ (runMRWrites u n f l i db).1.mrs →
      r ∈ db.mrs ∨ ∃ tx ∈ l, ∃ id, (tx : Tx).transaction_id = some id ∧
        r = ⟨u, id, tx.raw, n⟩
  | [], _, _, _, h => Or.inl h
  | tx :: rest, i, db, r, h => by
    simp only [runMRWrites] at h
    rcases runMRWrites_mrs_rows u n f rest (i + 1) _ r h with h1 | ⟨p, hp, id, hid, hr⟩
    · rcases insertMR_mrs_rows h1 with h2 | ⟨id, hid, hr⟩
      · exact Or.inl h2
      · exact Or.inr ⟨tx, List.mem_cons_self _ _, id, hid, hr⟩
    · exact Or.inr ⟨p, List.mem_cons_of_mem _ hp, id, hid, hr⟩

/-! ### Assembly lemmas for the whole ingestion call -/

theorem categorizedIdsOf_congr {db1 db2 : DB} (u : Nat)
    (h : db1.cats = db2.cats) :
    categorizedIdsOf db1 u = categorizedIdsOf db2 u := by
  simp [categorizedIdsOf, h]

theorem manualReviewIdsOf_congr {db1 db2 : DB} (u : Nat)
    (h : db1.mrs = db2.mrs) :
    manualReviewIdsOf db1 u = manualReviewIdsOf db2 u := by
  simp [manualReviewIdsOf, h]

theorem any_catKey_eq_false {db : DB} {u : Nat} {id : String}
    (h : id ∉ categorizedIdsOf db u) :
    db.cats.any (fun r => r.userId == u && r.txId == id) = false := by
  rw [← Bool.not_eq_true, List.any_eq_true]
  rintro ⟨r, hr, hp⟩
  rw [Bool.and_eq_true, beq_iff_eq, beq_iff_eq] at hp
  exact h (mem_categorizedIdsOf.2 ⟨r, hr, hp.1, hp.2⟩)

theorem any_mrKey_eq_false {db : DB} {u : Nat} {id : String}
    (h : id ∉ manualReviewIdsOf db u) :
    db.mrs.any (fun r => r.userId == u && r.txId == id) = false := by
  rw [← Bool.not_eq_true, List.any_eq_true]
  rintro ⟨r, hr, hp⟩
  rw [Bool.and_eq_true, beq_iff_eq, beq_iff_eq] at hp
  exact h (mem_manualReviewIdsOf.2 ⟨r, hr, hp.1, hp.2⟩)

theorem insertCat_fresh_eq {db : DB} {u : Nat} {id : String}
    (c d : String) (n : Nat) (h : id ∉ categorizedIdsOf db u) :
    insertCatNoConflict db u (some id) c d n false =
      ({ db with cats := db.cats ++ [⟨u, id, c, d, n⟩] }, false) := by
  unfold insertCatNoConflict
  simp [any_catKey_eq_false h]

theorem insertMR_fresh_eq {db : DB} {u : Nat} {id : String}
    (d : String) (n : Nat) (h : id ∉ manualReviewIdsOf db u) :
    insertMRNoConflict db u (some id) d n false =
      ({ db with mrs := db.mrs ++ [⟨u, id, d, n⟩] }, false) := by
  unfold insertMRNoConflict
  simp [any_mrKey_eq_false h]

/-- Unfolding of the ingestion call on a non-empty batch, with the loop
replaced by its partition characterization. -/
theorem process_result_eq (txs : List Tx) (u : Nat) (db : DB) (n : Nat)
    (fA fM : Nat → Bool) (h : txs ≠ []) :
    processTransactionsForCategorization txs u db n fA fM =
      (if (runAutoWrites u n fA
            (autosOf (categorizedIdsOf db u) (manualReviewIdsOf db u) txs) 0 db).2 then
        ⟨(runAutoWrites u n fA
            (autosOf (categorizedIdsOf db u) (manualReviewIdsOf db u) txs) 0 db).1,
          false,
          (autosOf (categorizedIdsOf db u) (manualReviewIdsOf db u) txs).length,
          (manualsOf (categorizedIdsOf db u) (manualReviewIdsOf db u) txs).length⟩
      else
        ⟨(runMRWrites u n fM
            (manualsOf (categorizedIdsOf db u) (manualReviewIdsOf db u) txs) 0
            (runAutoWrites u n fA
              (autosOf (categorizedIdsOf db u) (manualReviewIdsOf db u) txs) 0 db).1).1,
          !(runMRWrites u n fM
            (manualsOf (categorizedIdsOf db u) (manualReviewIdsOf db u) txs) 0
            (runAutoWrites u n fA
              (autosOf (categorizedIdsOf db u) (manualReviewIdsOf db u) txs) 0 db).1).2,
          (autosOf (categorizedIdsOf db u) (manualReviewIdsOf db u) txs).length,
          (manualsOf (categorizedIdsOf db u) (manualReviewIdsOf db u) txs).length⟩) := by
  have hlen : ¬ txs.length = 0 := by
    simpa [List.length_eq_zero] using h
  simp only [processTransactionsForCategorization, hlen, if_false, partitionTxs_eq]

theorem length_filter_add_length_filter_not (p : Tx → Bool) :
    ∀ l : List Tx,
      (l.filter p).length + (l.filter (fun tx => !p tx)).length = l.length
  | [] => rfl
  | tx :: rest => by
    have ih := length_filter_add_length_filter_not p rest
    cases h : p tx <;> simp [List.filter_cons, h] <;> omega

theorem process_autoCount (txs : List Tx) (u : Nat) (db : DB) (n : Nat)
    (fA fM : Nat → Bool) :
    (processTransactionsForCategorization txs u db n fA fM).autoCount =
      (autosOf (categorizedIdsOf db u) (manualReviewIdsOf db u) txs).length := by
  by_cases htxs : txs = []
  · subst htxs; rfl
  · rw [process_result_eq _ _ _ _ _ _ htxs]
    split <;> rfl

theorem process_manualCount (txs : List Tx) (u : Nat) (db : DB) (n : Nat)
    (fA fM : Nat → Bool) :
    (processTransactionsForCategorization txs u db n fA fM).manualCount =
      (manualsOf (categorizedIdsOf db u) (manualReviewIdsOf db u) txs).length := by
  by_cases htxs : txs = []
  · subst htxs; rfl
  · rw [process_result_eq _ _ _ _ _ _ htxs]
    split <;> rfl

theorem process_cats_append (txs : List Tx) (u : Nat) (db : DB) (n : Nat)
    (fA fM : Nat → Bool) :
    ∃ tl, (processTransactionsForCategorization txs u db n fA fM).db.cats =
      db.cats ++ tl := by
  by_cases htxs : txs = []
  · subst htxs; exact ⟨[], by simp [processTransactionsForCategorization]⟩
  · rw [process_result_eq _ _ _ _ _ _ htxs]
    split
    · exact runAutoWrites_cats_append u n fA
        (autosOf (categorizedIdsOf db u) (manualReviewIdsOf db u) txs) 0 db
    · obtain ⟨tl, htl⟩ := runAutoWrites_cats_append u n fA
        (autosOf (categorizedIdsOf db u) (manualReviewIdsOf db u) txs) 0 db
      refine ⟨tl, ?_⟩
      rw [runMRWrites_cats, htl]

theorem process_mrs_append (txs : List Tx) (u : Nat) (db : DB) (n : Nat)
    (fA fM : Nat → Bool) :
    ∃ tl, (processTransactionsForCategorization txs u db n fA fM).db.mrs =
      db.mrs ++ tl := by
  by_cases htxs : txs = []
  · subst htxs; exact ⟨[], by simp [processTransactionsForCategorization]⟩
  · rw [process_result_eq _ _ _ _ _ _ htxs]
    split
    · exact ⟨[], by rw [runAutoWrites_mrs]; simp⟩
    · obtain ⟨tl, htl⟩ := runMRWrites_mrs_append u n fM
        (manualsOf (categorizedIdsOf db u) (manualReviewIdsOf db u) txs) 0
        (runAutoWrites u n fA
          (autosOf (categorizedIdsOf db u) (manualReviewIdsOf db u) txs) 0 db).1
      refine ⟨tl, ?_⟩
      rw [htl, runAutoWrites_mrs]

theorem survivesDedup_true_iff {cIds mIds : List String} {tx : Tx} :
    survivesDedup cIds mIds tx = true ↔
      ¬∃ id, tx.transaction_id = some id ∧ (id ∈ cIds ∨ id ∈ mIds) := by
  cases ht : tx.transaction_id with
  | none => simp [survivesDedup, hasId, ht]
  | some id => simp [survivesDedup, hasId, ht, List.elem_iff]

theorem survivesDedup_false_iff {cIds mIds : List String} {tx : Tx} :
    survivesDedup cIds mIds tx = false ↔
      ∃ id, tx.transaction_id = some id ∧ (id ∈ cIds ∨ id ∈ mIds) := by
  rw [Bool.eq_false_iff, Ne, survivesDedup_true_iff, not_not]

theorem mem_dedupFiltered {cIds mIds : List String} {txs : List Tx} {tx : Tx} :
    tx ∈ dedupFiltered cIds mIds txs ↔
      tx ∈ txs ∧ survivesDedup cIds mIds tx = true :=
  List.mem_filter

theorem mem_autosOf {cIds mIds : List String} {txs : List Tx}
    {p : Tx × String} :
    p ∈ autosOf cIds mIds txs ↔
      p.1 ∈ dedupFiltered cIds mIds txs ∧ isAutoCategorizable p.1 = true ∧
        p.2 = cleanCategory (p.1.pfcPrimary.getD "") := by
  simp only [autosOf, List.mem_map, List.mem_filter]
  constructor
  · rintro ⟨tx, ⟨htx, ha⟩, rfl⟩
    exact ⟨htx, ha, rfl⟩
  · rcases p with ⟨tx, c⟩
    rintro ⟨htx, ha, hc⟩
    exact ⟨tx, ⟨htx, ha⟩, by rw [← hc]⟩

theorem mem_manualsOf {cIds mIds : List String} {txs : List Tx} {tx : Tx} :
    tx ∈ manualsOf cIds mIds txs ↔
      tx ∈ dedupFiltered cIds mIds txs ∧ isAutoCategorizable tx = false := by
  simp only [manualsOf, List.mem_filter, Bool.not_eq_true']

theorem table_mem_ne_empty : ∀ c ∈ AUTO_CATEGORIZE_PLAID_CATEGORIES, c ≠ "" := by
  decide

theorem isAutoCategorizable_none {tx : Tx} (hp : tx.pfcPrimary = none) :
    isAutoCategorizable tx = false := by
  simp [isAutoCategorizable, hp]

theorem isAutoCategorizable_not_mem {tx : Tx} {c : String}
    (hp : tx.pfcPrimary = some c) (hm : c ∉ AUTO_CATEGORIZE_PLAID_CATEGORIES) :
    isAutoCategorizable tx = false := by
  have hc : AUTO_CATEGORIZE_PLAID_CATEGORIES.contains c = false := by
    rw [← Bool.not_eq_true]
    exact fun hcc => hm (List.elem_iff.mp hcc)
  simp only [isAutoCategorizable, hp, hc, Bool.and_false]

theorem isAutoCategorizable_mem {tx : Tx} {c : String}
    (hp : tx.pfcPrimary = some c) (hm : c ∈ AUTO_CATEGORIZE_PLAID_CATEGORIES) :
    isAutoCategorizable tx = true := by
  simp only [isAutoCategorizable, hp, Bool.and_eq_true]
  exact ⟨bne_iff_ne.mpr (table_mem_ne_empty c hm), List.elem_iff.mpr hm⟩

/-! ### The claims -/

/-- Claim C2: every transaction that survives the dedup filter is assigned
exactly one of the two decisions (auto with its display category, or
manual), and the returned counts add up to the size of the deduplicated
set. -/
theorem claim_C2 (txs : List Tx) (u : Nat) (db : DB) (n : Nat)
    (fA fM : Nat → Bool) :
    (∀ tx ∈ dedupFiltered (categorizedIdsOf db u) (manualReviewIdsOf db u) txs,
      (isAutoCategorizable tx = true →
        (tx, cleanCategory (tx.pfcPrimary.getD "")) ∈
          (partitionTxs (categorizedIdsOf db u) (manualReviewIdsOf db u) txs).1 ∧
        tx ∉ (partitionTxs (categorizedIdsOf db u) (manualReviewIdsOf db u) txs).2) ∧
      (isAutoCategorizable tx = false →
        tx ∈ (partitionTxs (categorizedIdsOf db u) (manualReviewIdsOf db u) txs).2 ∧
        ∀ c, (tx, c) ∉
          (partitionTxs (categorizedIdsOf db u) (manualReviewIdsOf db u) txs).1)) ∧
    (processTransactionsForCategorization txs u db n fA fM).autoCount +
      (processTransactionsForCategorization txs u db n fA fM).manualCount =
      (dedupFiltered (categorizedIdsOf db u) (manualReviewIdsOf db u) txs).length := by
  constructor
  · intro tx hf
    constructor
    · intro ha
      rw [partitionTxs_eq]
      refine ⟨mem_autosOf.mpr ⟨hf, ha, rfl⟩, ?_⟩
      intro hm
      have := (mem_manualsOf.mp hm).2
      rw [ha] at this
      cases this
    · intro ha
      rw [partitionTxs_eq]
      refine ⟨mem_manualsOf.mpr ⟨hf, ha⟩, ?_⟩
      intro c hc
      have := (mem_autosOf.mp hc).2.1
      rw [ha] at this
      cases this
  · rw [process_autoCount, process_manualCount]
    unfold autosOf manualsOf
    rw [List.length_map]
    exact length_filter_add_length_filter_not isAutoCategorizable _

theorem claim_C2_witness :
    (processTransactionsForCategorization
        [Tx.mk (some "A") (some "INCOME") "rawA"] 0 ⟨[], []⟩ 3 noFail noFail).autoCount +
      (processTransactionsForCategorization
        [Tx.mk (some "A") (some "INCOME") "rawA"] 0 ⟨[], []⟩ 3 noFail noFail).manualCount =
      (dedupFiltered (categorizedIdsOf ⟨[], []⟩ 0) (manualReviewIdsOf ⟨[], []⟩ 0)
        [Tx.mk (some "A") (some "INCOME") "rawA"]).length :=
  (claim_C2 [Tx.mk (some "A") (some "INCOME") "rawA"] 0 ⟨[], []⟩ 3 noFail noFail).2

/-- Claim C3: the dedup filter selects exactly the transactions whose id is
present in neither existing set; transactions outside that subset are not
classified, not persisted, and not counted. -/
theorem claim_C3 (txs : List Tx) (u : Nat) (db : DB) (n : Nat)
    (fA fM : Nat → Bool) :
    (∀ tx ∈ txs,
      tx ∈ dedupFiltered (categorizedIdsOf db u) (manualReviewIdsOf db u) txs ↔
        ¬∃ id, tx.transaction_id = some id ∧
          (id ∈ categorizedIdsOf db u ∨ id ∈ manualReviewIdsOf db u)) ∧
    (∀ p ∈ (partitionTxs (categorizedIdsOf db u) (manualReviewIdsOf db u) txs).1,
      (p : Tx × String).1 ∈
        dedupFiltered (categorizedIdsOf db u) (manualReviewIdsOf db u) txs) ∧
    (∀ tx ∈ (partitionTxs (categorizedIdsOf db u) (manualReviewIdsOf db u) txs).2,
      tx ∈ dedupFiltered (categorizedIdsOf db u) (manualReviewIdsOf db u) txs) ∧
    (∀ row ∈ (processTransactionsForCategorization txs u db n fA fM).db.cats,
      row ∈ db.cats ∨
        ∃ tx ∈ dedupFiltered (categorizedIdsOf db u) (manualReviewIdsOf db u) txs,
          (tx : Tx).transaction_id = some row.txId) ∧
    (∀ row ∈ (processTransactionsForCategorization txs u db n fA fM).db.mrs,
      row ∈ db.mrs ∨
        ∃ tx ∈ dedupFiltered (categorizedIdsOf db u) (manualReviewIdsOf db u) txs,
          (tx : Tx).transaction_id = some row.txId) ∧
    (processTransactionsForCategorization txs u db n fA fM).autoCount +
      (processTransactionsForCategorization txs u db n fA fM).manualCount =
      (dedupFiltered (categorizedIdsOf db u) (manualReviewIdsOf db u) txs).length := by
  refine ⟨?_, ?_, ?_, ?_, ?_, ?_⟩
  · intro tx htx
    constructor
    · intro hf
      exact survivesDedup_true_iff.mp (mem_dedupFiltered.mp hf).2
    · intro hn
      exact mem_dedupFiltered.mpr ⟨htx, survivesDedup_true_iff.mpr hn⟩
  · intro p hp
    rw [partitionTxs_eq] at hp
    exact (mem_autosOf.mp hp).1
  · intro tx htx
    rw [partitionTxs_eq] at htx
    exact (mem_manualsOf.mp htx).1
  · intro row hrow
    by_cases htxs : txs = []
    · subst htxs
      exact Or.inl (by simpa [processTransactionsForCategorization] using hrow)
    · rw [process_result_eq _ _ _ _ _ _ htxs] at hrow
      split at hrow
      · rcases runAutoWrites_cats_rows u n fA _ 0 db row hrow with h1 | ⟨p, hp, id, hid, hr⟩
        · exact Or.inl h1
        · refine Or.inr ⟨p.1, (mem_autosOf.mp hp).1, ?_⟩
          rw [hr]
          exact hid
      · rw [runMRWrites_cats] at hrow
        rcases runAutoWrites_cats_rows u n fA _ 0 db row hrow with h1 | ⟨p, hp, id, hid, hr⟩
        · exact Or.inl h1
        · refine Or.inr ⟨p.1, (mem_autosOf.mp hp).1, ?_⟩
          rw [hr]
          exact hid
  · intro row hrow
    by_cases htxs : txs = []
    · subst htxs
      exact Or.inl (by simpa [processTransactionsForCategorization] using hrow)
    · rw [process_result_eq _ _ _ _ _ _ htxs] at hrow
      split at hrow
      · rw [runAutoWrites_mrs] at hrow
        exact Or.inl hrow
      · rcases runMRWrites_mrs_rows u n fM _ 0 _ row hrow with h1 | ⟨tx, htx, id, hid, hr⟩
        · rw [runAutoWrites_mrs] at h1
          exact Or.inl h1
        · refine Or.inr ⟨tx, (mem_manualsOf.mp htx).1, ?_⟩
          rw [hr]
          exact hid
  · rw [process_autoCount, process_manualCount]
    unfold autosOf manualsOf
    rw [List.length_map]
    exact length_filter_add_length_filter_not isAutoCategorizable _

theorem claim_C3_witness :
    (processTransactionsForCategorization
        [Tx.mk (some "B") none "rawB"] 0 ⟨[], []⟩ 4 noFail noFail).autoCount +
      (processTransactionsForCategorization
        [Tx.mk (some "B") none "rawB"] 0 ⟨[], []⟩ 4 noFail noFail).manualCount =
      (dedupFiltered (categorizedIdsOf ⟨[], []⟩ 0) (manualReviewIdsOf ⟨[], []⟩ 0)
        [Tx.mk (some "B") none "rawB"]).length :=
  (claim_C3 [Tx.mk (some "B") none "rawB"] 0 ⟨[], []⟩ 4 noFail noFail).2.2.2.2.2

/-- Claim C4: a deduplicated transaction with an absent or unmatched
provider category code is routed to manual; one whose code is in the rule
table is routed to auto, with the display category produced by replacing
underscores with spaces, lowercasing, and capitalizing each word; in
particular TRANSFER_IN yields "Transfer In", ATM_FEES yields "Atm Fees",
and FOOD_AND_DRINK is not in the table, hence manual. -/
theorem claim_C4 :
    (∀ tx : Tx, tx.pfcPrimary = none → isAutoCategorizable tx = false) ∧
    (∀ (tx : Tx) (c : String), tx.pfcPrimary = some c →
      c ∉ AUTO_CATEGORIZE_PLAID_CATEGORIES → isAutoCategorizable tx = false) ∧
    (∀ (tx : Tx) (c : String), tx.pfcPrimary = some c →
      c ∈ AUTO_CATEGORIZE_PLAID_CATEGORIES → isAutoCategorizable tx = true) ∧
    (∀ (cIds mIds : List String) (txs : List Tx) (tx : Tx) (c : String),
      tx ∈ dedupFiltered cIds mIds txs → tx.pfcPrimary = some c →
      c ∈ AUTO_CATEGORIZE_PLAID_CATEGORIES →
      (tx, cleanCategory c) ∈ (partitionTxs cIds mIds txs).1) ∧
    cleanCategory "TRANSFER_IN" = "Transfer In" ∧
    cleanCategory "ATM_FEES" = "Atm Fees" ∧
    "FOOD_AND_DRINK" ∉ AUTO_CATEGORIZE_PLAID_CATEGORIES ∧
    (∀ tx : Tx, tx.pfcPrimary = some "FOOD_AND_DRINK" →
      isAutoCategorizable tx = false) := by
  refine ⟨?_, ?_, ?_, ?_, by decide, by decide, by decide, ?_⟩
  · exact fun tx hp => isAutoCategorizable_none hp
  · exact fun tx c hp hm => isAutoCategorizable_not_mem hp hm
  · exact fun tx c hp hm => isAutoCategorizable_mem hp hm
  · intro cIds mIds txs tx c hf hp hm
    rw [partitionTxs_eq]
    exact mem_autosOf.mpr ⟨hf, isAutoCategorizable_mem hp hm, by rw [hp]; rfl⟩
  · exact fun tx hp => isAutoCategorizable_not_mem hp (by decide)

theorem claim_C4_witness :
    (Tx.mk (some "W") (some "TRANSFER_IN") "rawW").pfcPrimary = some "TRANSFER_IN" ∧
    "TRANSFER_IN" ∈ AUTO_CATEGORIZE_PLAID_CATEGORIES ∧
    isAutoCategorizable (Tx.mk (some "W") (some "TRANSFER_IN") "rawW") = true :=
  ⟨rfl, by decide,
    claim_C4.2.2.1 (Tx.mk (some "W") (some "TRANSFER_IN") "rawW") "TRANSFER_IN"
      rfl (by decide)⟩

/-- Claim C10: the dedup filter does not collapse duplicate occurrences of
a fresh transaction id inside one batch: every occurrence survives with
its multiplicity, so the counts can exceed the number of distinct new
ids, while the conflict policy persists at most one row per key (in the
concrete instance, a batch of two copies of one fresh auto transaction
returns autoCount 2 yet persists a single Categorization row). -/
theorem claim_C10 (db : DB) (u : Nat) (txs : List Tx) (tx : Tx) (id : String)
    (h1 : tx.transaction_id = some id)
    (h2 : id ∉ categorizedIdsOf db u) (h3 : id ∉ manualReviewIdsOf db u) :
    (dedupFiltered (categorizedIdsOf db u) (manualReviewIdsOf db u) txs).count tx =
      txs.count tx ∧
    processTransactionsForCategorization
        [Tx.mk (some "X") (some "TRANSFER_IN") "rawX",
         Tx.mk (some "X") (some "TRANSFER_IN") "rawX"] 0 ⟨[], []⟩ 5 noFail noFail =
      ⟨⟨[⟨0, "X", "Transfer In", "rawX", 5⟩], []⟩, true, 2, 0⟩ := by
  constructor
  · unfold dedupFiltered
    apply List.count_filter
    apply survivesDedup_true_iff.mpr
    rintro ⟨id2, hid2, hmem⟩
    rw [h1] at hid2
    injection hid2 with he
    subst he
    rcases hmem with hm | hm
    · exact h2 hm
    · exact h3 hm
  · decide

theorem claim_C10_witness :
    (Tx.mk (some "X") (some "TRANSFER_IN") "rawX").transaction_id = some "X" ∧
    "X" ∉ categorizedIdsOf ⟨[], []⟩ 0 ∧
    "X" ∉ manualReviewIdsOf ⟨[], []⟩ 0 ∧
    (dedupFiltered (categorizedIdsOf ⟨[], []⟩ 0) (manualReviewIdsOf ⟨[], []⟩ 0)
        [Tx.mk (some "X") (some "TRANSFER_IN") "rawX",
         Tx.mk (some "X") (some "TRANSFER_IN") "rawX"]).count
        (Tx.mk (some "X") (some "TRANSFER_IN") "rawX") =
      [Tx.mk (some "X") (some "TRANSFER_IN") "rawX",
       Tx.mk (some "X") (some "TRANSFER_IN") "rawX"].count
        (Tx.mk (some "X") (some "TRANSFER_IN") "rawX") :=
  ⟨rfl, by decide, by decide,
    (claim_C10 ⟨[], []⟩ 0
      [Tx.mk (some "X") (some "TRANSFER_IN") "rawX",
       Tx.mk (some "X") (some "TRANSFER_IN") "rawX"]
      (Tx.mk (some "X") (some "TRANSFER_IN") "rawX") "X"
      rfl (by decide) (by decide)).1⟩

/-- Claim C5: the ingestion-time categorization upsert is a no-op on
conflict: the categorization table only ever grows by appended rows, so
every existing row survives re-ingestion unchanged; and in the
two-transaction scenario (already-categorized T1 plus fresh rule-matching
T2) the run returns autoCount 1, manualCount 0, appends exactly T2's new
row, and leaves the manual-review table untouched. -/
theorem claim_C5 (u n : Nat) (db : DB) :
    (∀ (txs : List Tx) (fA fM : Nat → Bool),
      ∃ tl, (processTransactionsForCategorization txs u db n fA fM).db.cats =
        db.cats ++ tl) ∧
    (∀ (tx1 tx2 : Tx) (t1 t2 c : String),
      tx1.transaction_id = some t1 → t1 ∈ categorizedIdsOf db u →
      tx2.transaction_id = some t2 →
      t2 ∉ categorizedIdsOf db u → t2 ∉ manualReviewIdsOf db u →
      tx2.pfcPrimary = some c → c ∈ AUTO_CATEGORIZE_PLAID_CATEGORIES →
      processTransactionsForCategorization [tx1, tx2] u db n noFail noFail =
        ⟨⟨db.cats ++ [⟨u, t2, cleanCategory c, tx2.raw, n⟩], db.mrs⟩, true, 1, 0⟩) := by
  constructor
  · exact fun txs fA fM => process_cats_append txs u db n fA fM
  · intro tx1 tx2 t1 t2 c h1 h1mem h2 h2c h2m hp hm
    have hs1 : survivesDedup (categorizedIdsOf db u) (manualReviewIdsOf db u) tx1
        = false :=
      survivesDedup_false_iff.mpr ⟨t1, h1, Or.inl h1mem⟩
    have hs2 : survivesDedup (categorizedIdsOf db u) (manualReviewIdsOf db u) tx2
        = true := by
      apply survivesDedup_true_iff.mpr
      rintro ⟨id, hid, hmem⟩
      rw [h2] at hid
      injection hid with he
      subst he
      rcases hmem with h | h
      · exact h2c h
      · exact h2m h
    have hauto2 := isAutoCategorizable_mem hp hm
    have hfil : dedupFiltered (categorizedIdsOf db u) (manualReviewIdsOf db u)
        [tx1, tx2] = [tx2] := by
      simp [dedupFiltered, List.filter_cons, hs1, hs2]
    have hautos : autosOf (categorizedIdsOf db u) (manualReviewIdsOf db u)
        [tx1, tx2] = [(tx2, cleanCategory c)] := by
      unfold autosOf
      rw [hfil]
      simp [List.filter_cons, hauto2, hp]
    have hmans : manualsOf (categorizedIdsOf db u) (manualReviewIdsOf db u)
        [tx1, tx2] = [] := by
      unfold manualsOf
      rw [hfil]
      simp [List.filter_cons, hauto2]
    have hrun : runAutoWrites u n noFail [(tx2, cleanCategory c)] 0 db =
        ({ db with cats := db.cats ++ [⟨u, t2, cleanCategory c, tx2.raw, n⟩] },
          false) := by
      simp only [runAutoWrites, noFail, h2]
      rw [insertCat_fresh_eq (cleanCategory c) tx2.raw n h2c]
      rfl
    rw [process_result_eq _ _ _ _ _ _ (by simp)]
    rw [hautos, hmans, hrun]
    simp [runMRWrites]

theorem claim_C5_witness :
    (Tx.mk (some "T1") (some "INCOME") "r1").transaction_id = some "T1" ∧
    "T1" ∈ categorizedIdsOf ⟨[⟨0, "T1", "Income", "old", 1⟩], []⟩ 0 ∧
    (Tx.mk (some "T2") (some "TRANSFER_IN") "r2").transaction_id = some "T2" ∧
    "T2" ∉ categorizedIdsOf ⟨[⟨0, "T1", "Income", "old", 1⟩], []⟩ 0 ∧
    "T2" ∉ manualReviewIdsOf ⟨[⟨0, "T1", "Income", "old", 1⟩], []⟩ 0 ∧
    (Tx.mk (some "T2") (some "TRANSFER_IN") "r2").pfcPrimary = some "TRANSFER_IN" ∧
    "TRANSFER_IN" ∈ AUTO_CATEGORIZE_PLAID_CATEGORIES ∧
    processTransactionsForCategorization
        [Tx.mk (some "T1") (some "INCOME") "r1",
         Tx.mk (some "T2") (some "TRANSFER_IN") "r2"] 0
        ⟨[⟨0, "T1", "Income", "old", 1⟩], []⟩ 9 noFail noFail =
      ⟨⟨(⟨[⟨0, "T1", "Income", "old", 1⟩], []⟩ : DB).cats ++
          [⟨0, "T2", cleanCategory "TRANSFER_IN", "r2", 9⟩],
        (⟨[⟨0, "T1", "Income", "old", 1⟩], []⟩ : DB).mrs⟩, true, 1, 0⟩ :=
  ⟨rfl, by decide, rfl, by decide, by decide, rfl, by decide,
    (claim_C5 0 9 ⟨[⟨0, "T1", "Income", "old", 1⟩], []⟩).2
      (Tx.mk (some "T1") (some "INCOME") "r1")
      (Tx.mk (some "T2") (some "TRANSFER_IN") "r2") "T1" "T2" "TRANSFER_IN"
      rfl (by decide) rfl (by decide) (by decide) rfl (by decide)⟩

theorem categorize_mrs (db : DB) (u : Nat) (tid cat raw : String) (n : Nat) :
    (categorizeTransaction db u tid cat raw n).mrs =
      db.mrs.filter (fun r => !(r.userId == u && r.txId == tid)) := rfl

theorem categorize_cats (db : DB) (u : Nat) (tid cat raw : String) (n : Nat) :
    (categorizeTransaction db u tid cat raw n).cats =
      if db.cats.any (fun r => r.userId == u && r.txId == tid) then
        db.cats.map (fun r =>
          if r.userId == u && r.txId == tid then
            { r with category := cat, plaidData := raw, createdAt := n }
          else r)
      else db.cats ++ [⟨u, tid, cat, raw, n⟩] := rfl

/-- Claim C6: the explicit categorization operation writes the
(category, raw data, timestamp) row for the key, overwriting on conflict,
leaves every other row untouched, deletes any manual-review entry for the
same key, and makes a subsequent ingestion re-delivering that transaction
a complete no-op. -/
theorem claim_C6 (db : DB) (u : Nat) (tid cat raw : String) (n : Nat) :
    ((⟨u, tid, cat, raw, n⟩ : CatRow) ∈
      (categorizeTransaction db u tid cat raw n).cats) ∧
    (∀ r ∈ (categorizeTransaction db u tid cat raw n).cats,
      r.userId = u → r.txId = tid → r = ⟨u, tid, cat, raw, n⟩) ∧
    (∀ r ∈ db.cats, ¬(r.userId = u ∧ r.txId = tid) →
      r ∈ (categorizeTransaction db u tid cat raw n).cats) ∧
    (∀ r ∈ (categorizeTransaction db u tid cat raw n).cats,
      r ∈ db.cats ∨ r = ⟨u, tid, cat, raw, n⟩) ∧
    (∀ r : MRRow, r ∈ (categorizeTransaction db u tid cat raw n).mrs ↔
      r ∈ db.mrs ∧ ¬(r.userId = u ∧ r.txId = tid)) ∧
    (∀ tx : Tx, tx.transaction_id = some tid → ∀ (n2 : Nat) (fA fM : Nat → Bool),
      processTransactionsForCategorization [tx] u
        (categorizeTransaction db u tid cat raw n) n2 fA fM =
        ⟨categorizeTransaction db u tid cat raw n, true, 0, 0⟩) := by
  have hnew : (⟨u, tid, cat, raw, n⟩ : CatRow) ∈
      (categorizeTransaction db u tid cat raw n).cats := by
    rw [categorize_cats]
    by_cases hconf : db.cats.any (fun r => r.userId == u && r.txId == tid) = true
    · rw [if_pos hconf]
      obtain ⟨r0, hr0, hp0⟩ := List.any_eq_true.mp hconf
      refine List.mem_map.mpr ⟨r0, hr0, ?_⟩
      rw [if_pos hp0]
      rw [Bool.and_eq_true, beq_iff_eq, beq_iff_eq] at hp0
      rw [CatRow.mk.injEq]
      exact ⟨hp0.1, hp0.2, rfl, rfl, rfl⟩
    · rw [if_neg hconf]
      simp
  refine ⟨hnew, ?_, ?_, ?_, ?_, ?_⟩
  · intro r hr hru hrt
    rw [categorize_cats] at hr
    by_cases hconf : db.cats.any (fun r => r.userId == u && r.txId == tid) = true
    · rw [if_pos hconf] at hr
      obtain ⟨r0, hr0, hmap⟩ := List.mem_map.mp hr
      by_cases hc0 : (r0.userId == u && r0.txId == tid) = true
      · rw [if_pos hc0] at hmap
        rw [Bool.and_eq_true, beq_iff_eq, beq_iff_eq] at hc0
        rw [← hmap, CatRow.mk.injEq]
        exact ⟨hc0.1, hc0.2, rfl, rfl, rfl⟩
      · rw [if_neg hc0] at hmap
        rw [← hmap] at hru hrt
        refine absurd ?_ hc0
        rw [Bool.and_eq_true, beq_iff_eq, beq_iff_eq]
        exact ⟨hru, hrt⟩
    · rw [if_neg hconf] at hr
      rcases List.mem_append.mp hr with h1 | h1
      · exact absurd (List.any_eq_true.mpr ⟨r, h1,
          by rw [Bool.and_eq_true, beq_iff_eq, beq_iff_eq]; exact ⟨hru, hrt⟩⟩) hconf
      · simpa using h1
  · intro r hr hne
    rw [categorize_cats]
    by_cases hconf : db.cats.any (fun r => r.userId == u && r.txId == tid) = true
    · rw [if_pos hconf]
      refine List.mem_map.mpr ⟨r, hr, ?_⟩
      rw [if_neg ?_]
      rw [Bool.and_eq_true, beq_iff_eq, beq_iff_eq]
      exact hne
    · rw [if_neg hconf]
      exact List.mem_append_left _ hr
  · intro r hr
    rw [categorize_cats] at hr
    by_cases hconf : db.cats.any (fun r => r.userId == u && r.txId == tid) = true
    · rw [if_pos hconf] at hr
      obtain ⟨r0, hr0, hmap⟩ := List.mem_map.mp hr
      by_cases hc0 : (r0.userId == u && r0.txId == tid) = true
      · rw [if_pos hc0] at hmap
        rw [Bool.and_eq_true, beq_iff_eq, beq_iff_eq] at hc0
        refine Or.inr ?_
        rw [← hmap, CatRow.mk.injEq]
        exact ⟨hc0.1, hc0.2, rfl, rfl, rfl⟩
      · rw [if_neg hc0] at hmap
        rw [← hmap]
        exact Or.inl hr0
    · rw [if_neg hconf] at hr
      rcases List.mem_append.mp hr with h1 | h1
      · exact Or.inl h1
      · exact Or.inr (by simpa using h1)
  · intro r
    rw [categorize_mrs]
    simp [List.mem_filter, Bool.and_eq_true, not_and]
    tauto
  · intro tx htx n2 fA fM
    have hidmem : tid ∈ categorizedIdsOf (categorizeTransaction db u tid cat raw n) u :=
      mem_categorizedIdsOf.mpr ⟨⟨u, tid, cat, raw, n⟩, hnew, rfl, rfl⟩
    have hs : survivesDedup
        (categorizedIdsOf (categorizeTransaction db u tid cat raw n) u)
        (manualReviewIdsOf (categorizeTransaction db u tid cat raw n) u) tx = false :=
      survivesDedup_false_iff.mpr ⟨tid, htx, Or.inl hidmem⟩
    rw [process_result_eq _ _ _ _ _ _ (by simp)]
    have hfil : dedupFiltered
        (categorizedIdsOf (categorizeTransaction db u tid cat raw n) u)
        (manualReviewIdsOf (categorizeTransaction db u tid cat raw n) u) [tx] = [] := by
      simp [dedupFiltered, List.filter_cons, hs]
    have hautos : autosOf
        (categorizedIdsOf (categorizeTransaction db u tid cat raw n) u)
        (manualReviewIdsOf (categorizeTransaction db u tid cat raw n) u) [tx] = [] := by
      unfold autosOf
      rw [hfil]
      rfl
    have hmans : manualsOf
        (categorizedIdsOf (categorizeTransaction db u tid cat raw n) u)
        (manualReviewIdsOf (categorizeTransaction db u tid cat raw n) u) [tx] = [] := by
      unfold manualsOf
      rw [hfil]
      rfl
    rw [hautos, hmans]
    simp [runAutoWrites, runMRWrites]

theorem claim_C6_witness :
    (Tx.mk (some "T") (some "FOOD_AND_DRINK") "rt").transaction_id = some "T" ∧
    processTransactionsForCategorization
        [Tx.mk (some "T") (some "FOOD_AND_DRINK") "rt"] 0
        (categorizeTransaction ⟨[], [⟨0, "T", "data", 2⟩]⟩ 0 "T" "Food" "rawT" 5)
        9 noFail noFail =
      ⟨categorizeTransaction ⟨[], [⟨0, "T", "data", 2⟩]⟩ 0 "T" "Food" "rawT" 5,
        true, 0, 0⟩ :=
  ⟨rfl,
    (claim_C6 ⟨[], [⟨0, "T", "data", 2⟩]⟩ 0 "T" "Food" "rawT" 5).2.2.2.2.2
      (Tx.mk (some "T") (some "FOOD_AND_DRINK") "rt") rfl 9 noFail noFail⟩

theorem process_noFail_result (txs : List Tx) (u : Nat) (db : DB) (n : Nat)
    (htxs : txs ≠ [])
    (hids : ∀ tx ∈ txs, (tx : Tx).transaction_id ≠ none) :
    processTransactionsForCategorization txs u db n noFail noFail =
      ⟨(runMRWrites u n noFail
          (manualsOf (categorizedIdsOf db u) (manualReviewIdsOf db u) txs) 0
          (runAutoWrites u n noFail
            (autosOf (categorizedIdsOf db u) (manualReviewIdsOf db u) txs) 0 db).1).1,
        true,
        (autosOf (categorizedIdsOf db u) (manualReviewIdsOf db u) txs).length,
        (manualsOf (categorizedIdsOf db u) (manualReviewIdsOf db u) txs).length⟩ := by
  have hA : ∀ p ∈ autosOf (categorizedIdsOf db u) (manualReviewIdsOf db u) txs,
      (p : Tx × String).1.transaction_id ≠ none := fun p hp =>
    hids p.1 (mem_dedupFiltered.mp (mem_autosOf.mp hp).1).1
  have hM : ∀ tx ∈ manualsOf (categorizedIdsOf db u) (manualReviewIdsOf db u) txs,
      (tx : Tx).transaction_id ≠ none := fun tx htx =>
    hids tx (mem_dedupFiltered.mp (mem_manualsOf.mp htx).1).1
  have hA2 := runAutoWrites_snd_false u n noFail
    (autosOf (categorizedIdsOf db u) (manualReviewIdsOf db u) txs) 0 db
    (fun j _ => rfl) hA
  have hM2 := runMRWrites_snd_false u n noFail
    (manualsOf (categorizedIdsOf db u) (manualReviewIdsOf db u) txs) 0
    (runAutoWrites u n noFail
      (autosOf (categorizedIdsOf db u) (manualReviewIdsOf db u) txs) 0 db).1
    (fun j _ => rfl) hM
  rw [process_result_eq _ _ _ _ _ _ htxs]
  rw [if_neg (by rw [hA2]; simp)]
  rw [hM2]
  rfl

theorem runs_noFail_covers (txs : List Tx) (u : Nat) (db : DB) (n : Nat) :
    ∀ tx ∈ txs, ∀ id : String, (tx : Tx).transaction_id = some id →
      id ∈ categorizedIdsOf
        (runMRWrites u n noFail
          (manualsOf (categorizedIdsOf db u) (manualReviewIdsOf db u) txs) 0
          (runAutoWrites u n noFail
            (autosOf (categorizedIdsOf db u) (manualReviewIdsOf db u) txs) 0 db).1).1 u ∨
      id ∈ manualReviewIdsOf
        (runMRWrites u n noFail
          (manualsOf (categorizedIdsOf db u) (manualReviewIdsOf db u) txs) 0
          (runAutoWrites u n noFail
            (autosOf (categorizedIdsOf db u) (manualReviewIdsOf db u) txs) 0 db).1).1 u := by
  intro tx htx id hid
  set cIds := categorizedIdsOf db u with hcIds
  set mIds := manualReviewIdsOf db u with hmIds
  set db1 := (runAutoWrites u n noFail (autosOf cIds mIds txs) 0 db).1 with hdb1
  set db2 := (runMRWrites u n noFail (manualsOf cIds mIds txs) 0 db1).1 with hdb2
  have hcats21 : db2.cats = db1.cats := by
    rw [hdb2]
    exact runMRWrites_cats u n noFail (manualsOf cIds mIds txs) 0 db1
  have hmrs1 : db1.mrs = db.mrs := by
    rw [hdb1]
    exact runAutoWrites_mrs u n noFail (autosOf cIds mIds txs) 0 db
  by_cases hsv : survivesDedup cIds mIds tx = true
  · have hf : tx ∈ dedupFiltered cIds mIds txs := mem_dedupFiltered.mpr ⟨htx, hsv⟩
    by_cases hauto : isAutoCategorizable tx = true
    · left
      have hpmem : (tx, cleanCategory (tx.pfcPrimary.getD "")) ∈ autosOf cIds mIds txs :=
        mem_autosOf.mpr ⟨hf, hauto, rfl⟩
      obtain ⟨j, hget⟩ := List.mem_iff_get.mp hpmem
      have hgid : ((autosOf cIds mIds txs).get ⟨j.1, j.2⟩).1.transaction_id = some id := by
        have h := congrArg (fun p => (p : Tx × String).1.transaction_id) hget
        exact h.trans hid
      have h1 : id ∈ categorizedIdsOf db1 u := by
        rw [hdb1]
        exact runAutoWrites_mem_of_not_fail u n noFail
          (autosOf cIds mIds txs) 0 db j.1 j.2 rfl id hgid
      rw [categorizedIdsOf_congr u hcats21]
      exact h1
    · right
      have hmm : tx ∈ manualsOf cIds mIds txs :=
        mem_manualsOf.mpr ⟨hf, Bool.eq_false_iff.mpr hauto⟩
      obtain ⟨j, hget⟩ := List.mem_iff_get.mp hmm
      have hgid : ((manualsOf cIds mIds txs).get ⟨j.1, j.2⟩).transaction_id = some id := by
        have h := congrArg (fun t => (t : Tx).transaction_id) hget
        exact h.trans hid
      rw [hdb2]
      exact runMRWrites_mem_of_not_fail u n noFail
        (manualsOf cIds mIds txs) 0 db1 j.1 j.2 rfl id hgid
  · have hsv' : survivesDedup cIds mIds tx = false := Bool.eq_false_iff.mpr hsv
    obtain ⟨id2, hid2, hin⟩ := survivesDedup_false_iff.mp hsv'
    rw [hid] at hid2
    injection hid2 with he
    subst he
    rcases hin with h | h
    · left
      have h1 : id ∈ categorizedIdsOf db1 u := by
        rw [hdb1]
        exact mem_categorizedIdsOf_of_append
          (runAutoWrites_cats_append u n noFail (autosOf cIds mIds txs) 0 db) h
      rw [categorizedIdsOf_congr u hcats21]
      exact h1
    · right
      have h1 : id ∈ manualReviewIdsOf db1 u := by
        rw [manualReviewIdsOf_congr u hmrs1]
        exact h
      rw [hdb2]
      exact mem_manualReviewIdsOf_of_append
        (runMRWrites_mrs_append u n noFail (manualsOf cIds mIds txs) 0 db1) h1

/-- Claim C1: when every record of the batch carries a transaction id and
the first run persists its writes (no external write failure), running the
ingestion step a second time on the identical batch returns normally with
autoCount = 0 and manualCount = 0 and leaves the persisted state exactly
as the first run left it. -/
theorem claim_C1 (txs : List Tx) (u : Nat) (db : DB) (n1 n2 : Nat)
    (hids : ∀ tx ∈ txs, (tx : Tx).transaction_id ≠ none) :
    (processTransactionsForCategorization txs u db n1 noFail noFail).ok = true ∧
    processTransactionsForCategorization txs u
        (processTransactionsForCategorization txs u db n1 noFail noFail).db
        n2 noFail noFail =
      ⟨(processTransactionsForCategorization txs u db n1 noFail noFail).db,
        true, 0, 0⟩ := by
  by_cases htxs : txs = []
  · subst htxs
    simp [processTransactionsForCategorization]
  · have hr1 := process_noFail_result txs u db n1 htxs hids
    set db2 := (processTransactionsForCategorization txs u db n1 noFail noFail).db
      with hdb2def
    have hcov : ∀ tx ∈ txs, ∀ id : String, (tx : Tx).transaction_id = some id →
        id ∈ categorizedIdsOf db2 u ∨ id ∈ manualReviewIdsOf db2 u := by
      intro tx htx id hid
      have h := runs_noFail_covers txs u db n1 tx htx id hid
      rw [hdb2def, hr1]
      exact h
    have hsv2 : ∀ tx ∈ txs,
        survivesDedup (categorizedIdsOf db2 u) (manualReviewIdsOf db2 u) tx = false := by
      intro tx htx
      obtain ⟨id, hid⟩ := Option.ne_none_iff_exists'.mp (hids tx htx)
      exact survivesDedup_false_iff.mpr ⟨id, hid, hcov tx htx id hid⟩
    have hfil2 : dedupFiltered (categorizedIdsOf db2 u) (manualReviewIdsOf db2 u)
        txs = [] := by
      unfold dedupFiltered
      rw [List.filter_eq_nil_iff]
      intro tx htx
      rw [hsv2 tx htx]
      simp
    have hautos2 : autosOf (categorizedIdsOf db2 u) (manualReviewIdsOf db2 u)
        txs = [] := by
      unfold autosOf
      rw [hfil2]
      rfl
    have hmans2 : manualsOf (categorizedIdsOf db2 u) (manualReviewIdsOf db2 u)
        txs = [] := by
      unfold manualsOf
      rw [hfil2]
      rfl
    refine ⟨by rw [hr1], ?_⟩
    rw [process_result_eq txs u db2 n2 noFail noFail htxs, hautos2, hmans2]
    simp [runAutoWrites, runMRWrites]

theorem claim_C1_witness :
    (∀ tx ∈ [Tx.mk (some "A") (some "INCOME") "rA", Tx.mk (some "B") none "rB"],
      (tx : Tx).transaction_id ≠ none) ∧
    ((processTransactionsForCategorization
        [Tx.mk (some "A") (some "INCOME") "rA", Tx.mk (some "B") none "rB"]
        0 ⟨[], []⟩ 1 noFail noFail).ok = true ∧
      processTransactionsForCategorization
          [Tx.mk (some "A") (some "INCOME") "rA", Tx.mk (some "B") none "rB"] 0
          (processTransactionsForCategorization
            [Tx.mk (some "A") (some "INCOME") "rA", Tx.mk (some "B") none "rB"]
            0 ⟨[], []⟩ 1 noFail noFail).db 2 noFail noFail =
        ⟨(processTransactionsForCategorization
            [Tx.mk (some "A") (some "INCOME") "rA", Tx.mk (some "B") none "rB"]
            0 ⟨[], []⟩ 1 noFail noFail).db, true, 0, 0⟩) :=
  ⟨by decide,
    claim_C1 [Tx.mk (some "A") (some "INCOME") "rA", Tx.mk (some "B") none "rB"]
      0 ⟨[], []⟩ 1 2 (by decide)⟩

/-- Claim C7 counterexample: a two-transaction batch in which the single
auto write fails externally. The call does not continue: it throws
(`ok = false`, the route answers 500) and the manual-review transaction
"M" is never persisted, refuting "the failure is caught, the batch is not
aborted, and all other transactions still have their writes attempted and
persisted". -/
theorem claim_C7_counterexample :
    (processTransactionsForCategorization
        [Tx.mk (some "A") (some "TRANSFER_IN") "ra", Tx.mk (some "M") none "rm"]
        0 ⟨[], []⟩ 7 (fun i => i == 0) noFail).ok = false ∧
    (processTransactionsForCategorization
        [Tx.mk (some "A") (some "TRANSFER_IN") "ra", Tx.mk (some "M") none "rm"]
        0 ⟨[], []⟩ 7 (fun i => i == 0) noFail).db.mrs = [] := by
  decide

/-- Claim C7 amended: an individual persistence failure is not caught
inside the ingestion step: the call fails (`ok = false`).  The writes of
the same partition are all dispatched eagerly, so every non-failing write
of that partition is still persisted; but a failure among the auto writes
means the manual-review writes are never created, leaving the
manual-review table untouched. -/
theorem claim_C7_amended (txs : List Tx) (u : Nat) (db : DB) (n : Nat)
    (fA fM : Nat → Bool) :
    ((∃ j, ∃ _ : j < (autosOf (categorizedIdsOf db u) (manualReviewIdsOf db u)
        txs).length, fA j = true) →
      (processTransactionsForCategorization txs u db n fA fM).ok = false ∧
      (processTransactionsForCategorization txs u db n fA fM).db.mrs = db.mrs ∧
      (∀ j (hj : j < (autosOf (categorizedIdsOf db u) (manualReviewIdsOf db u)
          txs).length), fA j = false → ∀ id : String,
        ((autosOf (categorizedIdsOf db u) (manualReviewIdsOf db u) txs).get
          ⟨j, hj⟩).1.transaction_id = some id →
        id ∈ categorizedIdsOf
          (processTransactionsForCategorization txs u db n fA fM).db u)) ∧
    ((∀ j, j < (autosOf (categorizedIdsOf db u) (manualReviewIdsOf db u)
        txs).length → fA j = false) →
     (∀ p ∈ autosOf (categorizedIdsOf db u) (manualReviewIdsOf db u) txs,
        (p : Tx × String).1.transaction_id ≠ none) →
     (∃ j, ∃ _ : j < (manualsOf (categorizedIdsOf db u) (manualReviewIdsOf db u)
        txs).length, fM j = true) →
      (processTransactionsForCategorization txs u db n fA fM).ok = false ∧
      (∀ j (hj : j < (manualsOf (categorizedIdsOf db u) (manualReviewIdsOf db u)
          txs).length), fM j = false → ∀ id : String,
        ((manualsOf (categorizedIdsOf db u) (manualReviewIdsOf db u) txs).get
          ⟨j, hj⟩).transaction_id = some id →
        id ∈ manualReviewIdsOf
          (processTransactionsForCategorization txs u db n fA fM).db u)) := by
  constructor
  · rintro ⟨j0, hj0, hf0⟩
    have htxs : txs ≠ [] := by
      rintro rfl
      rw [show autosOf (categorizedIdsOf db u) (manualReviewIdsOf db u)
        ([] : List Tx) = [] from rfl] at hj0
      exact Nat.not_lt_zero _ hj0
    have hA2 : (runAutoWrites u n fA
        (autosOf (categorizedIdsOf db u) (manualReviewIdsOf db u) txs) 0 db).2
        = true :=
      runAutoWrites_snd_of_fail u n fA _ 0 db j0 hj0
        (by rw [Nat.zero_add]; exact hf0)
    rw [process_result_eq _ _ _ _ _ _ htxs]
    rw [if_pos hA2]
    refine ⟨rfl, ?_, ?_⟩
    · exact runAutoWrites_mrs u n fA _ 0 db
    · intro j hj hfj id hid
      exact runAutoWrites_mem_of_not_fail u n fA _ 0 db j hj
        (by rw [Nat.zero_add]; exact hfj) id hid
  · rintro hAok hAids ⟨j0, hj0, hf0⟩
    have htxs : txs ≠ [] := by
      rintro rfl
      rw [show manualsOf (categorizedIdsOf db u) (manualReviewIdsOf db u)
        ([] : List Tx) = [] from rfl] at hj0
      exact Nat.not_lt_zero _ hj0
    have hA2 : (runAutoWrites u n fA
        (autosOf (categorizedIdsOf db u) (manualReviewIdsOf db u) txs) 0 db).2
        = false :=
      runAutoWrites_snd_false u n fA _ 0 db
        (fun j hj => by rw [Nat.zero_add]; exact hAok j hj) hAids
    have hM2 : (runMRWrites u n fM
        (manualsOf (categorizedIdsOf db u) (manualReviewIdsOf db u) txs) 0
        (runAutoWrites u n fA
          (autosOf (categorizedIdsOf db u) (manualReviewIdsOf db u) txs) 0 db).1).2
        = true :=
      runMRWrites_snd_of_fail u n fM _ 0 _ j0 hj0
        (by rw [Nat.zero_add]; exact hf0)
    rw [process_result_eq _ _ _ _ _ _ htxs]
    rw [if_neg (by rw [hA2]; simp)]
    constructor
    · show (!(runMRWrites u n fM
          (manualsOf (categorizedIdsOf db u) (manualReviewIdsOf db u) txs) 0
          (runAutoWrites u n fA
            (autosOf (categorizedIdsOf db u) (manualReviewIdsOf db u) txs) 0 db).1).2)
        = false
      rw [hM2]
      rfl
    · intro j hj hfj id hid
      exact runMRWrites_mem_of_not_fail u n fM _ 0 _ j hj
        (by rw [Nat.zero_add]; exact hfj) id hid

theorem claim_C7_amended_witness :
    (∃ j, ∃ _ : j < (autosOf (categorizedIdsOf ⟨[], []⟩ 0)
        (manualReviewIdsOf ⟨[], []⟩ 0)
        [Tx.mk (some "A") (some "TRANSFER_IN") "ra",
         Tx.mk (some "M") none "rm"]).length, (fun i => i == 0) j = true) ∧
    ((processTransactionsForCategorization
        [Tx.mk (some "A") (some "TRANSFER_IN") "ra", Tx.mk (some "M") none "rm"]
        0 ⟨[], []⟩ 7 (fun i => i == 0) noFail).ok = false ∧
      (processTransactionsForCategorization
        [Tx.mk (some "A") (some "TRANSFER_IN") "ra", Tx.mk (some "M") none "rm"]
        0 ⟨[], []⟩ 7 (fun i => i == 0) noFail).db.mrs =
        (⟨[], []⟩ : DB).mrs ∧
      (∀ j (hj : j < (autosOf (categorizedIdsOf ⟨[], []⟩ 0)
          (manualReviewIdsOf ⟨[], []⟩ 0)
          [Tx.mk (some "A") (some "TRANSFER_IN") "ra",
           Tx.mk (some "M") none "rm"]).length),
        (fun i => i == 0) j = false → ∀ id : String,
        ((autosOf (categorizedIdsOf ⟨[], []⟩ 0) (manualReviewIdsOf ⟨[], []⟩ 0)
          [Tx.mk (some "A") (some "TRANSFER_IN") "ra",
           Tx.mk (some "M") none "rm"]).get ⟨j, hj⟩).1.transaction_id = some id →
        id ∈ categorizedIdsOf
          (processTransactionsForCategorization
            [Tx.mk (some "A") (some "TRANSFER_IN") "ra",
             Tx.mk (some "M") none "rm"]
            0 ⟨[], []⟩ 7 (fun i => i == 0) noFail).db 0)) :=
  ⟨⟨0, by decide, rfl⟩,
    (claim_C7_amended
      [Tx.mk (some "A") (some "TRANSFER_IN") "ra", Tx.mk (some "M") none "rm"]
      0 ⟨[], []⟩ 7 (fun i => i == 0) noFail).1 ⟨0, by decide, rfl⟩⟩

/-- Claim C8 counterexample: a batch whose first record has no
transaction id. The record is not skipped: it is classified into the auto
bucket (autoCount 1), its insert violates the NOT NULL constraint, the
call throws (`ok = false`), and the second, well-formed record "M" is
never persisted — refuting "the record is skipped and does not abort the
batch". -/
theorem claim_C8_counterexample :
    processTransactionsForCategorization
        [Tx.mk none (some "TRANSFER_IN") "rn", Tx.mk (some "M") none "rm"]
        0 ⟨[], []⟩ 7 noFail noFail =
      ⟨⟨[], []⟩, false, 1, 1⟩ := by
  decide

/-- Claim C8 amended: a record with a missing transaction id is not
skipped: it passes the dedup filter and is classified and counted like
any other record; its own insert always fails (NOT NULL constraint), so
it is never persisted, and the resulting write error makes the whole
ingestion call fail (`ok = false`).  Every persisted row still stems from
a record that did carry a transaction id. -/
theorem claim_C8_amended (txs : List Tx) (u : Nat) (db : DB) (n : Nat)
    (fA fM : Nat → Bool)
    (h : ∃ tx ∈ txs, (tx : Tx).transaction_id = none) :
    (processTransactionsForCategorization txs u db n fA fM).ok = false ∧
    (∀ tx ∈ txs, (tx : Tx).transaction_id = none →
      tx ∈ dedupFiltered (categorizedIdsOf db u) (manualReviewIdsOf db u) txs) ∧
    (∀ row ∈ (processTransactionsForCategorization txs u db n fA fM).db.cats,
      row ∈ db.cats ∨ ∃ tx ∈ txs, (tx : Tx).transaction_id = some row.txId) ∧
    (∀ row ∈ (processTransactionsForCategorization txs u db n fA fM).db.mrs,
      row ∈ db.mrs ∨ ∃ tx ∈ txs, (tx : Tx).transaction_id = some row.txId) := by
  have hsvnone : ∀ tx ∈ txs, (tx : Tx).transaction_id = none →
      tx ∈ dedupFiltered (categorizedIdsOf db u) (manualReviewIdsOf db u) txs := by
    intro tx htx hn
    refine mem_dedupFiltered.mpr ⟨htx, survivesDedup_true_iff.mpr ?_⟩
    rintro ⟨id, hid, _⟩
    rw [hn] at hid
    cases hid
  obtain ⟨tx0, htx0, hn0⟩ := h
  have htxs : txs ≠ [] := List.ne_nil_of_mem htx0
  have hf0 : tx0 ∈ dedupFiltered (categorizedIdsOf db u) (manualReviewIdsOf db u)
      txs := hsvnone tx0 htx0 hn0
  have hok : (processTransactionsForCategorization txs u db n fA fM).ok = false := by
    rw [process_result_eq _ _ _ _ _ _ htxs]
    by_cases hauto : isAutoCategorizable tx0 = true
    · have hpmem : (tx0, cleanCategory (tx0.pfcPrimary.getD "")) ∈
          autosOf (categorizedIdsOf db u) (manualReviewIdsOf db u) txs :=
        mem_autosOf.mpr ⟨hf0, hauto, rfl⟩
      have hA2 : (runAutoWrites u n fA
          (autosOf (categorizedIdsOf db u) (manualReviewIdsOf db u) txs) 0 db).2
          = true :=
        runAutoWrites_snd_of_none u n fA _ 0 db ⟨_, hpmem, hn0⟩
      rw [if_pos hA2]
    · have hmm : tx0 ∈ manualsOf (categorizedIdsOf db u) (manualReviewIdsOf db u)
          txs := mem_manualsOf.mpr ⟨hf0, Bool.eq_false_iff.mpr hauto⟩
      by_cases hA2 : (runAutoWrites u n fA
          (autosOf (categorizedIdsOf db u) (manualReviewIdsOf db u) txs) 0 db).2
          = true
      · rw [if_pos hA2]
      · rw [if_neg hA2]
        have hM2 : (runMRWrites u n fM
            (manualsOf (categorizedIdsOf db u) (manualReviewIdsOf db u) txs) 0
            (runAutoWrites u n fA
              (autosOf (categorizedIdsOf db u) (manualReviewIdsOf db u) txs)
              0 db).1).2 = true :=
          runMRWrites_snd_of_none u n fM _ 0 _ ⟨tx0, hmm, hn0⟩
        show (!(runMRWrites u n fM
            (manualsOf (categorizedIdsOf db u) (manualReviewIdsOf db u) txs) 0
            (runAutoWrites u n fA
              (autosOf (categorizedIdsOf db u) (manualReviewIdsOf db u) txs) 0 db).1).2)
          = false
        rw [hM2]
        rfl
  refine ⟨hok, hsvnone, ?_, ?_⟩
  · intro row hrow
    rw [process_result_eq _ _ _ _ _ _ htxs] at hrow
    split at hrow
    · rcases runAutoWrites_cats_rows u n fA _ 0 db row hrow with h1 | ⟨p, hp, id, hid, hr⟩
      · exact Or.inl h1
      · refine Or.inr ⟨p.1, (mem_dedupFiltered.mp (mem_autosOf.mp hp).1).1, ?_⟩
        rw [hr]
        exact hid
    · rw [runMRWrites_cats] at hrow
      rcases runAutoWrites_cats_rows u n fA _ 0 db row hrow with h1 | ⟨p, hp, id, hid, hr⟩
      · exact Or.inl h1
      · refine Or.inr ⟨p.1, (mem_dedupFiltered.mp (mem_autosOf.mp hp).1).1, ?_⟩
        rw [hr]
        exact hid
  · intro row hrow
    rw [process_result_eq _ _ _ _ _ _ htxs] at hrow
    split at hrow
    · rw [runAutoWrites_mrs] at hrow
      exact Or.inl hrow
    · rcases runMRWrites_mrs_rows u n fM _ 0 _ row hrow with h1 | ⟨tx, htx, id, hid, hr⟩
      · rw [runAutoWrites_mrs] at h1
        exact Or.inl h1
      · refine Or.inr ⟨tx, (mem_dedupFiltered.mp (mem_manualsOf.mp htx).1).1, ?_⟩
        rw [hr]
        exact hid

theorem claim_C8_amended_witness :
    (∃ tx ∈ [Tx.mk none (some "TRANSFER_IN") "rn", Tx.mk (some "M") none "rm"],
      (tx : Tx).transaction_id = none) ∧
    (processTransactionsForCategorization
        [Tx.mk none (some "TRANSFER_IN") "rn", Tx.mk (some "M") none "rm"]
        0 ⟨[], []⟩ 7 noFail noFail).ok = false :=
  ⟨⟨Tx.mk none (some "TRANSFER_IN") "rn", by decide, rfl⟩,
    (claim_C8_amended
      [Tx.mk none (some "TRANSFER_IN") "rn", Tx.mk (some "M") none "rm"]
      0 ⟨[], []⟩ 7 noFail noFail
      ⟨Tx.mk none (some "TRANSFER_IN") "rn", by decide, rfl⟩).1⟩

/-! ### Preservation of the steady-state invariant -/

theorem catKeys_congr {db1 db2 : DB} (h : db1.cats = db2.cats) :
    catKeys db1 = catKeys db2 := by
  simp [catKeys, h]

theorem mrKeys_congr {db1 db2 : DB} (h : db1.mrs = db2.mrs) :
    mrKeys db1 = mrKeys db2 := by
  simp [mrKeys, h]

theorem any_catKey_true_of_mem {db : DB} {u : Nat} {id : String}
    (h : (u, id) ∈ catKeys db) :
    db.cats.any (fun r => r.userId == u && r.txId == id) = true := by
  obtain ⟨r, hr, h1, h2⟩ := mem_categorizedIdsOf.mp (mem_catKeys.mp h)
  refine List.any_eq_true.mpr ⟨r, hr, ?_⟩
  rw [Bool.and_eq_true, beq_iff_eq, beq_iff_eq]
  exact ⟨h1, h2⟩

theorem any_mrKey_true_of_mem {db : DB} {u : Nat} {id : String}
    (h : (u, id) ∈ mrKeys db) :
    db.mrs.any (fun r => r.userId == u && r.txId == id) = true := by
  obtain ⟨r, hr, h1, h2⟩ := mem_manualReviewIdsOf.mp (mem_mrKeys.mp h)
  refine List.any_eq_true.mpr ⟨r, hr, ?_⟩
  rw [Bool.and_eq_true, beq_iff_eq, beq_iff_eq]
  exact ⟨h1, h2⟩

theorem insertCat_eq_fail (db : DB) (u : Nat) (t : Option String)
    (c d : String) (n : Nat) :
    insertCatNoConflict db u t c d n true = (db, true) := by
  unfold insertCatNoConflict
  simp

theorem insertCat_eq_none (db : DB) (u : Nat) (c d : String) (n : Nat) :
    insertCatNoConflict db u none c d n false = (db, true) := by
  unfold insertCatNoConflict
  simp

theorem insertCat_eq_conflict {db : DB} {u : Nat} {id : String}
    (c d : String) (n : Nat)
    (h : db.cats.any (fun r => r.userId == u && r.txId == id) = true) :
    insertCatNoConflict db u (some id) c d n false = (db, false) := by
  unfold insertCatNoConflict
  simp [h]

theorem insertCat_eq_new {db : DB} {u : Nat} {id : String}
    (c d : String) (n : Nat)
    (h : db.cats.any (fun r => r.userId == u && r.txId == id) = false) :
    insertCatNoConflict db u (some id) c d n false =
      ({ db with cats := db.cats ++ [⟨u, id, c, d, n⟩] }, false) := by
  unfold insertCatNoConflict
  simp [h]

theorem insertMR_eq_fail (db : DB) (u : Nat) (t : Option String)
    (d : String) (n : Nat) :
    insertMRNoConflict db u t d n true = (db, true) := by
  unfold insertMRNoConflict
  simp

theorem insertMR_eq_none (db : DB) (u : Nat) (d : String) (n : Nat) :
    insertMRNoConflict db u none d n false = (db, true) := by
  unfold insertMRNoConflict
  simp

theorem insertMR_eq_conflict {db : DB} {u : Nat} {id : String}
    (d : String) (n : Nat)
    (h : db.mrs.any (fun r => r.userId == u && r.txId == id) = true) :
    insertMRNoConflict db u (some id) d n false = (db, false) := by
  unfold insertMRNoConflict
  simp [h]

theorem insertMR_eq_new {db : DB} {u : Nat} {id : String}
    (d : String) (n : Nat)
    (h : db.mrs.any (fun r => r.userId == u && r.txId == id) = false) :
    insertMRNoConflict db u (some id) d n false =
      ({ db with mrs := db.mrs ++ [⟨u, id, d, n⟩] }, false) := by
  unfold insertMRNoConflict
  simp [h]

theorem ss_insertCat {db : DB} {u : Nat} {t : Option String} {c d : String}
    {n : Nat} {fl : Bool} (hss : SteadyState db)
    (hmr : ∀ id, t = some id → (u, id) ∉ mrKeys db) :
    SteadyState (insertCatNoConflict db u t c d n fl).1 := by
  cases fl with
  | true =>
    rw [insertCat_eq_fail]
    exact hss
  | false =>
    cases t with
    | none =>
      rw [insertCat_eq_none]
      exact hss
    | some id =>
      by_cases hconf : db.cats.any (fun r => r.userId == u && r.txId == id) = true
      · rw [insertCat_eq_conflict c d n hconf]
        exact hss
      · rw [insertCat_eq_new c d n (Bool.eq_false_iff.mpr hconf)]
        have hkeys : catKeys ({ db with
            cats := db.cats ++ [⟨u, id, c, d, n⟩] }) = catKeys db ++ [(u, id)] := by
          simp [catKeys]
        have hnotin : (u, id) ∉ catKeys db :=
          fun hmem => hconf (any_catKey_true_of_mem hmem)
        refine ⟨?_, hss.2.1, ?_⟩
        · rw [hkeys, List.nodup_append]
          refine ⟨hss.1, List.nodup_singleton _, ?_⟩
          intro a ha hb
          rw [List.mem_singleton] at hb
          subst hb
          exact hnotin ha
        · intro k hk
          rw [hkeys] at hk
          rcases List.mem_append.mp hk with h | h
          · exact hss.2.2 k h
          · rw [List.mem_singleton] at h
            subst h
            exact hmr id rfl

theorem ss_insertMR {db : DB} {u : Nat} {t : Option String} {d : String}
    {n : Nat} {fl : Bool} (hss : SteadyState db)
    (hcat : ∀ id, t = some id → (u, id) ∉ catKeys db) :
    SteadyState (insertMRNoConflict db u t d n fl).1 := by
  cases fl with
  | true =>
    rw [insertMR_eq_fail]
    exact hss
  | false =>
    cases t with
    | none =>
      rw [insertMR_eq_none]
      exact hss
    | some id =>
      by_cases hconf : db.mrs.any (fun r => r.userId == u && r.txId == id) = true
      · rw [insertMR_eq_conflict d n hconf]
        exact hss
      · rw [insertMR_eq_new d n (Bool.eq_false_iff.mpr hconf)]
        have hkeys : mrKeys ({ db with
            mrs := db.mrs ++ [⟨u, id, d, n⟩] }) = mrKeys db ++ [(u, id)] := by
          simp [mrKeys]
        have hnotin : (u, id) ∉ mrKeys db :=
          fun hmem => hconf (any_mrKey_true_of_mem hmem)
        refine ⟨hss.1, ?_, ?_⟩
        · rw [hkeys, List.nodup_append]
          refine ⟨hss.2.1, List.nodup_singleton _, ?_⟩
          intro a ha hb
          rw [List.mem_singleton] at hb
          subst hb
          exact hnotin ha
        · intro k hk hkm
          rw [hkeys] at hkm
          rcases List.mem_append.mp hkm with h | h
          · exact hss.2.2 k hk h
          · rw [List.mem_singleton] at h
            subst h
            exact hcat id rfl hk

theorem ss_runAuto (u n : Nat) (f : Nat → Bool) :
    ∀ (l : List (Tx × String)) (i : Nat) (db : DB),
      SteadyState db →
      (∀ p ∈ l, ∀ id : String, (p : Tx × String).1.transaction_id = some id →
        (u, id) ∉ mrKeys db) →
      SteadyState (runAutoWrites u n f l i db).1
  | [], _, _, hss, _ => hss
  | (tx, c) :: rest, i, db, hss, hl => by
    simp only [runAutoWrites]
    have hstep : SteadyState
        (insertCatNoConflict db u tx.transaction_id c tx.raw n (f i)).1 :=
      ss_insertCat hss (fun id hid => hl (tx, c) (List.mem_cons_self _ _) id hid)
    have hmrs := insertCat_mrs db u tx.transaction_id c tx.raw n (f i)
    exact ss_runAuto u n f rest (i + 1) _ hstep (fun p hp id hid => by
      rw [mrKeys_congr hmrs]
      exact hl p (List.mem_cons_of_mem _ hp) id hid)

theorem ss_runMR (u n : Nat) (f : Nat → Bool) :
    ∀ (l : List Tx) (i : Nat) (db : DB),
      SteadyState db →
      (∀ tx ∈ l, ∀ id : String, (tx : Tx).transaction_id = some id →
        (u, id) ∉ catKeys db) →
      SteadyState (runMRWrites u n f l i db).1
  | [], _, _, hss, _ => hss
  | tx :: rest, i, db, hss, hl => by
    simp only [runMRWrites]
    have hstep : SteadyState
        (insertMRNoConflict db u tx.transaction_id tx.raw n (f i)).1 :=
      ss_insertMR hss (fun id hid => hl tx (List.mem_cons_self _ _) id hid)
    have hcats := insertMR_cats db u tx.transaction_id tx.raw n (f i)
    exact ss_runMR u n f rest (i + 1) _ hstep (fun p hp id hid => by
      rw [catKeys_congr hcats]
      exact hl p (List.mem_cons_of_mem _ hp) id hid)

theorem catKeys_runAuto_sub (u n : Nat) (f : Nat → Bool)
    (l : List (Tx × String)) (i : Nat) (db : DB) :
    ∀ k ∈ catKeys (runAutoWrites u n f l i db).1,
      k ∈ catKeys db ∨
        (k.1 = u ∧ ∃ p ∈ l, (p : Tx × String).1.transaction_id = some k.2) := by
  intro k hk
  obtain ⟨r, hr, hkey⟩ := List.mem_map.mp hk
  rcases runAutoWrites_cats_rows u n f l i db r hr with h | ⟨p, hp, id, hid, hre⟩
  · exact Or.inl (List.mem_map.mpr ⟨r, h, hkey⟩)
  · right
    rw [hre] at hkey
    rw [← hkey]
    exact ⟨rfl, p, hp, hid⟩

theorem ss_categorize {db : DB} {u : Nat} {tid cat raw : String} {n : Nat}
    (hss : SteadyState db) :
    SteadyState (categorizeTransaction db u tid cat raw n) := by
  have hmrsub : ∀ k ∈ mrKeys (categorizeTransaction db u tid cat raw n),
      k ∈ mrKeys db ∧ k ≠ (u, tid) := by
    intro k hk
    unfold mrKeys at hk
    rw [categorize_mrs] at hk
    obtain ⟨r, hr, hkey⟩ := List.mem_map.mp hk
    have hrm := List.mem_filter.mp hr
    refine ⟨List.mem_map.mpr ⟨r, hrm.1, hkey⟩, ?_⟩
    intro hke
    rw [hke] at hkey
    have h2 := hrm.2
    rw [Prod.mk.injEq] at hkey
    rw [Bool.not_eq_eq_eq_not, Bool.not_true, Bool.and_eq_false_iff] at h2
    rcases h2 with h2 | h2
    · rw [beq_eq_false_iff_ne] at h2
      exact h2 hkey.1
    · rw [beq_eq_false_iff_ne] at h2
      exact h2 hkey.2
  have hmrnodup : (mrKeys (categorizeTransaction db u tid cat raw n)).Nodup := by
    have hsub : List.Sublist (mrKeys (categorizeTransaction db u tid cat raw n))
        (mrKeys db) := by
      unfold mrKeys
      rw [categorize_mrs]
      exact (List.filter_sublist _).map _
    exact List.Nodup.sublist hsub hss.2.1
  by_cases hconf : db.cats.any (fun r => r.userId == u && r.txId == tid) = true
  · have hkeys : catKeys (categorizeTransaction db u tid cat raw n) = catKeys db := by
      unfold catKeys
      rw [categorize_cats, if_pos hconf, List.map_map]
      apply List.map_congr_left
      intro r _
      by_cases hc : (r.userId == u && r.txId == tid) = true
      · rw [Function.comp_apply, if_pos hc]
      · rw [Function.comp_apply, if_neg hc]
    refine ⟨by rw [hkeys]; exact hss.1, hmrnodup, ?_⟩
    intro k hk hkm
    rw [hkeys] at hk
    exact hss.2.2 k hk (hmrsub k hkm).1
  · have hkeys : catKeys (categorizeTransaction db u tid cat raw n) =
        catKeys db ++ [(u, tid)] := by
      unfold catKeys
      rw [categorize_cats, if_neg hconf]
      simp
    have hnotin : (u, tid) ∉ catKeys db :=
      fun hmem => hconf (any_catKey_true_of_mem hmem)
    refine ⟨?_, hmrnodup, ?_⟩
    · rw [hkeys, List.nodup_append]
      refine ⟨hss.1, List.nodup_singleton _, ?_⟩
      intro a ha hb
      rw [List.mem_singleton] at hb
      subst hb
      exact hnotin ha
    · intro k hk hkm
      rw [hkeys] at hk
      rcases List.mem_append.mp hk with h | h
      · exact hss.2.2 k h (hmrsub k hkm).1
      · rw [List.mem_singleton] at h
        subst h
        exact (hmrsub _ hkm).2 rfl

/-- Claim C9 counterexample: starting from an empty (steady) state, a
batch containing the same transaction id twice — once with a
rule-matching code, once without — puts the key (0, "X") into BOTH the
categorization table and the manual-review table, refuting "after the
ingestion step at most one of the two records exists per key". -/
theorem claim_C9_counterexample :
    SteadyState (⟨[], []⟩ : DB) ∧
    (0, "X") ∈ catKeys (processTransactionsForCategorization
      [Tx.mk (some "X") (some "TRANSFER_IN") "ra", Tx.mk (some "X") none "rb"]
      0 ⟨[], []⟩ 7 noFail noFail).db ∧
    (0, "X") ∈ mrKeys (processTransactionsForCategorization
      [Tx.mk (some "X") (some "TRANSFER_IN") "ra", Tx.mk (some "X") none "rb"]
      0 ⟨[], []⟩ 7 noFail noFail).db := by
  decide

/-- Claim C9 amended: the steady-state invariant (no duplicate key inside
either table, no key in both tables) is preserved by the explicit
categorization operation unconditionally, and by the ingestion step
provided no transaction id occurs both in an auto-classified and in a
manual-classified record of the same batch. -/
theorem claim_C9_amended (db : DB) (u n : Nat) (hss : SteadyState db) :
    (∀ (txs : List Tx) (fA fM : Nat → Bool),
      (∀ id : String,
        (∃ p ∈ autosOf (categorizedIdsOf db u) (manualReviewIdsOf db u) txs,
          (p : Tx × String).1.transaction_id = some id) →
        ¬∃ tx ∈ manualsOf (categorizedIdsOf db u) (manualReviewIdsOf db u) txs,
          (tx : Tx).transaction_id = some id) →
      SteadyState (processTransactionsForCategorization txs u db n fA fM).db) ∧
    (∀ tid cat raw : String,
      SteadyState (categorizeTransaction db u tid cat raw n)) := by
  constructor
  · intro txs fA fM hdisj
    by_cases htxs : txs = []
    · subst htxs
      simpa [processTransactionsForCategorization] using hss
    · have hssA : SteadyState (runAutoWrites u n fA
          (autosOf (categorizedIdsOf db u) (manualReviewIdsOf db u) txs) 0 db).1 := by
        apply ss_runAuto u n fA _ 0 db hss
        intro p hp id hid
        have hsv := (mem_dedupFiltered.mp (mem_autosOf.mp hp).1).2
        have hnot := survivesDedup_true_iff.mp hsv
        intro hmem
        exact hnot ⟨id, hid, Or.inr (mem_mrKeys.mp hmem)⟩
      rw [process_result_eq _ _ _ _ _ _ htxs]
      split
      · exact hssA
      · apply ss_runMR u n fM _ 0 _ hssA
        intro tx htx id hid
        have hsv := (mem_dedupFiltered.mp (mem_manualsOf.mp htx).1).2
        have hnot := survivesDedup_true_iff.mp hsv
        intro hmem
        rcases catKeys_runAuto_sub u n fA _ 0 db (u, id) hmem with
          h | ⟨_, p, hp, hpid⟩
        · exact hnot ⟨id, hid, Or.inl (mem_catKeys.mp h)⟩
        · exact hdisj id ⟨p, hp, hpid⟩ ⟨tx, htx, hid⟩
  · intro tid cat raw
    exact ss_categorize hss

theorem claim_C9_amended_witness :
    SteadyState (⟨[], [⟨0, "Y", "d", 1⟩]⟩ : DB) ∧
    SteadyState (categorizeTransaction ⟨[], [⟨0, "Y", "d", 1⟩]⟩ 0 "Y" "Fees" "r" 6) :=
  ⟨by decide,
    (claim_C9_amended ⟨[], [⟨0, "Y", "d", 1⟩]⟩ 0 6 (by decide)).2 "Y" "Fees" "r"⟩

end Plaid
